import Mathlib

/-!
# Politics-Form dashboard: submission aggregation and filtering

A shallow embedding of the data-shaping functions of `dashboard.js` (`loadData`,
`updateDashboard`, `getDailySubmissions`, `getWeekdaySubmissions`, `filterTable`,
`updateAnalytics`, `generateInsights`) and of the submit handler of `script.js`, together
with the parts of the ECMAScript semantics they rely on, and the properties of the
specification proved or refuted on it.

Conventions of the embedding.

* A time value is an `Int` number of milliseconds since the epoch.  A `Date` object is
  an `Option Int`: `none` is the Invalid Date (time value `NaN`).  A record's `timestamp`
  is an integer; `new Date(timestamp)` is invalid beyond 8.64e15 ms from the epoch.
* The local time zone is the host's `LocalTZA(t, isUTC)`: an offset from UTC that may
  change with time (daylight saving), under three regularity conditions listed with
  `Zone`.  Every zone with a fixed offset is one; `easternZone` has two transitions.
* Every `new Date()` evaluated during one call of a dashboard function reads the same
  clock value `now`.
* Strings are sequences of Unicode scalar values; `String.prototype.toLowerCase` is a
  parameter of the host, since its Unicode tables are not part of the program.
* Numbers are IEEE 754 binary64 values: the quotient and the product computed by
  `generateInsights` are rounded to nearest, ties to even.
* The two counting maps of `updateAnalytics` are ordinary objects: their keys are listed
  with array indices first, and they inherit the members of `Object.prototype`.
-/

namespace PoliticsForm

/-! ## ECMAScript time values and the `Date` methods used by the dashboard -/

/-- Milliseconds per day. -/
def msPerDay : Int := 86400000

/-- Largest magnitude of a valid time value (ECMAScript `TimeClip`). -/
def maxTime : Int := 8640000000000000

/-- A `Date` object: its time value, or `none` for the Invalid Date. -/
abbrev JSDate := Option Int

/-- ECMAScript `TimeClip` on an integral argument. -/
def TimeClip (t : Int) : JSDate :=
  if -maxTime ≤ t ∧ t ≤ maxTime then some t else none

/-- The constructor `new Date(value)` on an integral number; `new Date()` is `newDate now`. -/
def newDate (value : Int) : JSDate := TimeClip value

/-- ECMAScript `Day(t) = floor(t / msPerDay)`. -/
def Day (t : Int) : Int := t / msPerDay

/-- The local time zone of the host.  `LocalTZA t isUTC` is the implementation-defined
local time zone adjustment of ECMAScript: the offset of local time from UTC in
milliseconds, in force at the UTC time value `t` when `isUTC` is true, and chosen for the
local time value `t` when `isUTC` is false (for a local time that occurs twice or is
skipped at a transition, the offset before the transition).  The zones of the model are
those with three properties:

* `spread`: any two offsets of the zone differ by at most one day;
* `earliest`: a local time that occurs at an instant is read back as an instant that is
  not later (the offset before a backward transition is the larger one);
* `sameDay`: a local time read as an instant and shown again in local time stays on its
  calendar day (a skipped hour does not reach over midnight, and no calendar day is
  skipped as a whole). -/
structure Zone where
  LocalTZA : Int → Bool → Int
  spread : ∀ t b t' b', LocalTZA t b - LocalTZA t' b' ≤ msPerDay
  earliest : ∀ t, LocalTZA t true ≤ LocalTZA (t + LocalTZA t true) false
  sameDay : ∀ t,
    Day (t - LocalTZA t false + LocalTZA (t - LocalTZA t false) true) = Day t

/-- ECMAScript `LocalTime(t) = t + LocalTZA(t, true)`. -/
def LocalTime (tz : Zone) (t : Int) : Int := t + tz.LocalTZA t true

/-- ECMAScript `UTC(t) = t - LocalTZA(t, false)`. -/
def UTC (tz : Zone) (t : Int) : Int := t - tz.LocalTZA t false

/-- A zone with the same offset (in milliseconds) at all times. -/
def fixedZone (offset : Int) : Zone :=
  { LocalTZA := fun _ _ => offset
    spread := by
      intro _ _ _ _
      simp [msPerDay]
    earliest := fun _ => le_refl _
    sameDay := by
      intro t
      simp }

/-- US Eastern time with the daylight-saving period of 2023: UTC-4 from 2023-03-12 07:00 UTC
(02:00 local becomes 03:00) until 2023-11-05 06:00 UTC (02:00 local becomes 01:00), UTC-5
otherwise.  The local hour skipped in March and the local hour repeated in November are
read with the offset before the transition. -/
def easternZone : Zone :=
  { LocalTZA := fun t isUTC =>
      if isUTC then
        if 1678604400000 ≤ t ∧ t < 1699164000000 then -14400000 else -18000000
      else
        if 1678590000000 ≤ t ∧ t < 1699149600000 then -14400000 else -18000000
    spread := by
      intro t b t' b'
      simp only [msPerDay]
      split_ifs <;> omega
    earliest := by
      intro t
      simp only [Bool.false_eq_true, if_true, if_false]
      split_ifs <;> omega
    sameDay := by
      intro t
      simp only [Bool.false_eq_true, if_true, if_false, Day, msPerDay]
      split_ifs <;> omega }

/-- ECMAScript `TimeWithinDay(t) = t modulo msPerDay`. -/
def TimeWithinDay (t : Int) : Int := t % msPerDay

/-- ECMAScript `WeekDay(t)`: 0 = Sunday, ..., 6 = Saturday. -/
def WeekDay (t : Int) : Int := (Day t + 4) % 7

/-- Proleptic Gregorian date `(year, month 0..11, date 1..31)` of a day number
(days since 1970-01-01). -/
def civilFromDays (z : Int) : Int × Int × Int :=
  let z1 := z + 719468
  let era := z1 / 146097
  let doe := z1 % 146097
  let yoe := (doe - doe / 1460 + doe / 36524 - doe / 146096) / 365
  let doy := doe - (365 * yoe + yoe / 4 - yoe / 100)
  let mp := (5 * doy + 2) / 153
  let d := doy - (153 * mp + 2) / 5 + 1
  let m := if mp < 10 then mp + 2 else mp - 10
  let y := yoe + era * 400 + (if m ≤ 1 then 1 else 0)
  (y, m, d)

/-- Day number of the proleptic Gregorian date `(y, m, d)` with `m` in `0..11`. -/
def daysFromCivil (y m d : Int) : Int :=
  let y1 := if m ≤ 1 then y - 1 else y
  let era := y1 / 400
  let yoe := y1 % 400
  let mp := if m ≥ 2 then m - 2 else m + 10
  let doy := (153 * mp + 2) / 5 + d - 1
  let doe := yoe * 365 + yoe / 4 - yoe / 100 + doy
  era * 146097 + doe - 719468

/-- ECMAScript `YearFromTime`. -/
def YearFromTime (t : Int) : Int := (civilFromDays (Day t)).1

/-- ECMAScript `MonthFromTime` (0 = January). -/
def MonthFromTime (t : Int) : Int := (civilFromDays (Day t)).2.1

/-- ECMAScript `DateFromTime` (day of the month, from 1). -/
def DateFromTime (t : Int) : Int := (civilFromDays (Day t)).2.2

/-- ECMAScript `MakeDay(year, month, date)` on integers: the day number of the first of
the month plus `date - 1`. -/
def MakeDay (year month date : Int) : Int :=
  daysFromCivil (year + month / 12) (month % 12) 1 + date - 1

/-- ECMAScript `MakeDate(day, time)`. -/
def MakeDate (day time : Int) : Int := day * msPerDay + time

/-- The method `Date.prototype.getTime`; `none` is `NaN`. -/
def getTime (d : JSDate) : Option Int := d

/-- The method `Date.prototype.getDate`; `none` is `NaN`. -/
def getDate (tz : Zone) (d : JSDate) : Option Int :=
  d.map (fun t => DateFromTime (LocalTime tz t))

/-- The method `Date.prototype.getDay`; `none` is `NaN`. -/
def getDay (tz : Zone) (d : JSDate) : Option Int :=
  d.map (fun t => WeekDay (LocalTime tz t))

/-- Milliseconds per hour. -/
def msPerHour : Int := 3600000

/-- ECMAScript `HourFromTime`. -/
def HourFromTime (t : Int) : Int := (t / msPerHour) % 24

/-- The method `Date.prototype.getHours`; `none` is `NaN`. -/
def getHours (tz : Zone) (d : JSDate) : Option Int :=
  d.map (fun t => HourFromTime (LocalTime tz t))

/-- The method `Date.prototype.setDate(dt)`, returning the updated date object. -/
def setDate (tz : Zone) (d : JSDate) (dt : Option Int) : JSDate :=
  match d, dt with
  | some t, some k =>
    let lt := LocalTime tz t
    TimeClip (UTC tz (MakeDate (MakeDay (YearFromTime lt) (MonthFromTime lt) k) (TimeWithinDay lt)))
  | _, _ => none

/-- The method `Date.prototype.toDateString`.  The text `Www Mmm DD YYYY` is represented by
its four components (weekday, month, date, year); `none` is the text `Invalid Date`. -/
def toDateString (tz : Zone) (d : JSDate) : Option (Int × Int × Int × Int) :=
  d.map (fun t =>
    let lt := LocalTime tz t
    (WeekDay lt, MonthFromTime lt, DateFromTime lt, YearFromTime lt))

/-- The call `toLocaleDateString('en-US', { month: 'short', day: 'numeric' })`.  The text
`Mmm D` is represented by its two components (month, date); `none` is `Invalid Date`. -/
def toLocaleDateString (tz : Zone) (d : JSDate) : Option (Int × Int) :=
  d.map (fun t =>
    let lt := LocalTime tz t
    (MonthFromTime lt, DateFromTime lt))

/-- The comparison `a > b` of two `Date` objects (false when either is invalid). -/
def dateGt (a b : JSDate) : Bool :=
  match a, b with
  | some x, some y => decide (x > y)
  | _, _ => false

/-- The comparison `a <= b` of two `Date` objects (false when either is invalid). -/
def dateLe (a b : JSDate) : Bool :=
  match a, b with
  | some x, some y => decide (x ≤ y)
  | _, _ => false

/-- The expression `d.getDate() - k` (a number, `none` is `NaN`). -/
def dateMinus (tz : Zone) (d : JSDate) (k : Int) : Option Int :=
  (getDate tz d).map (fun n => n - k)

/-! ## Strings -/

/-- Whether the character list `t` starts the character list `s`. -/
def startsWith : List Char → List Char → Bool
  | _, [] => true
  | [], _ :: _ => false
  | c :: s, d :: t => c == d && startsWith s t

/-- Whether `t` occurs in `s` as a contiguous block. -/
def includesFrom : List Char → List Char → Bool
  | [], t => startsWith [] t
  | c :: s, t => startsWith (c :: s) t || includesFrom s t

/-- The property `length` of a string: its number of UTF-16 code units. -/
def utf16Length (s : String) : Nat :=
  s.data.foldl (fun n c => n + (if c.toNat < 65536 then 1 else 2)) 0

/-- The method `String.prototype.includes`. -/
def includes (s t : String) : Bool := includesFrom s.data t.data

/-- What the program takes from its host: the local time zone and the case mapping
`String.prototype.toLowerCase`. -/
structure Host where
  tz : Zone
  toLowerCase : String → String

/-- An ASCII-only case mapping, used to instantiate `Host` on concrete inputs. -/
def asciiLower (s : String) : String := String.mk (s.data.map Char.toLower)

/-- A host in the UTC zone with the ASCII case mapping. -/
def utcHost : Host := { tz := fixedZone 0, toLowerCase := asciiLower }

/-- A host in the zone `easternZone` with the ASCII case mapping. -/
def easternHost : Host := { tz := easternZone, toLowerCase := asciiLower }

/-! ## Data model -/

/-- A submission record of the working set (`id` merged with the stored fields). -/
structure Submission where
  id : String
  name : String
  email : String
  subject : String
  message : String
  timestamp : Int
deriving DecidableEq

/-- The module-level state of `dashboard.js`. -/
structure Dashboard where
  allSubmissions : List Submission
  currentPage : Int

/-! ## `updateDashboard` -/

/-- The three counters written by `updateDashboard`. -/
structure DashboardStats where
  totalSubmissions : Nat
  todaySubmissions : Nat
  weekSubmissions : Nat
deriving DecidableEq

/-- The function `updateDashboard` (dashboard.js 88-105): the counters it displays. -/
def updateDashboard (h : Host) (now : Int) (allSubmissions : List Submission) :
    DashboardStats :=
  let today := toDateString h.tz (newDate now)
  let todayCount := (allSubmissions.filter (fun s =>
    toDateString h.tz (newDate s.timestamp) == today)).length
  let weekAgo := newDate now
  let weekAgo := setDate h.tz weekAgo (dateMinus h.tz weekAgo 7)
  let weekCount := (allSubmissions.filter (fun s =>
    dateGt (newDate s.timestamp) weekAgo)).length
  { totalSubmissions := allSubmissions.length
    todaySubmissions := todayCount
    weekSubmissions := weekCount }

/-! ## `filterTable` -/

/-- The callback of the time filter in `filterTable` (dashboard.js 256-271). -/
def timeFilter (h : Host) (filterValue : String) (now : JSDate) (submission : Submission) :
    Bool :=
  let submissionDate := newDate submission.timestamp
  match filterValue with
  | "today" => toDateString h.tz submissionDate == toDateString h.tz now
  | "week" =>
    let weekAgo := (getTime now).bind (fun v => newDate (v - 7 * 24 * 60 * 60 * 1000))
    dateGt submissionDate weekAgo
  | "month" =>
    let monthAgo := (getTime now).bind (fun v => newDate (v - 30 * 24 * 60 * 60 * 1000))
    dateGt submissionDate monthAgo
  | _ => true

/-- The callback of the search filter in `filterTable` (dashboard.js 276-281). -/
def searchFilter (h : Host) (searchTerm : String) (submission : Submission) : Bool :=
  includes (h.toLowerCase submission.name) searchTerm ||
  includes (h.toLowerCase submission.email) searchTerm ||
  includes (h.toLowerCase submission.subject) searchTerm ||
  includes (h.toLowerCase submission.message) searchTerm

/-- The function `filterTable` (dashboard.js 247-287) as a transition of the module state;
`searchInput` and `filterSelect` are the values of the two form controls. -/
def filterTable (h : Host) (now : Int) (searchInput filterSelect : String)
    (st : Dashboard) : Dashboard :=
  let searchTerm := h.toLowerCase searchInput
  let filterValue := filterSelect
  let filtered := st.allSubmissions
  let filtered :=
    if filterValue ≠ "all" then
      let now := newDate now
      filtered.filter (fun submission => timeFilter h filterValue now submission)
    else filtered
  let filtered :=
    if searchTerm ≠ "" then
      filtered.filter (fun submission => searchFilter h searchTerm submission)
    else filtered
  { allSubmissions := filtered, currentPage := 1 }

/-! ## Histograms: `getDailySubmissions` and `getWeekdaySubmissions` -/

/-- The `date` object built in the iteration `i` of the loop of `getDailySubmissions`
(dashboard.js 180-181). -/
def dailyDate (h : Host) (now : Int) (i : Int) : JSDate :=
  let date := newDate now
  setDate h.tz date (dateMinus h.tz date i)

/-- The function `getDailySubmissions` (dashboard.js 175-192): the pair `(labels, data)`.
The loop `for (let i = 6; i >= 0; i--)` pushes one label and one count per iteration. -/
def getDailySubmissions (h : Host) (now : Int) (allSubmissions : List Submission) :
    List (Option (Int × Int)) × List Nat :=
  [6, 5, 4, 3, 2, 1, 0].foldl (fun (acc : List (Option (Int × Int)) × List Nat) (i : Int) =>
    let date := dailyDate h now i
    let dateStr := toLocaleDateString h.tz date
    let count := (allSubmissions.filter (fun s =>
      toDateString h.tz (newDate s.timestamp) == toDateString h.tz date)).length
    (acc.1 ++ [dateStr], acc.2 ++ [count])) ([], [])

/-- The statement `arr[k]++` on an array of counters, for an index inside the array. -/
def bumpAt : List Nat → Nat → List Nat
  | [], _ => []
  | x :: xs, 0 => (x + 1) :: xs
  | x :: xs, k + 1 => x :: bumpAt xs k

/-- The statement `counters[index]++` where `index` is a number (`none` is `NaN`).  An index
that is `NaN` touches the property named `NaN` and leaves the array elements as they are;
`getDay` yields `0..6` and `getHours` yields `0..23`, so a numeric index is always inside
the array. -/
def increment (counters : List Nat) (index : Option Int) : List Nat :=
  match index with
  | some k => if 0 ≤ k ∧ k < counters.length then bumpAt counters k.toNat else counters
  | none => counters

/-- The expression `day === 0 ? 6 : day - 1` (`none` is `NaN`). -/
def weekdayIndex (day : Option Int) : Option Int :=
  day.map (fun d => if d = 0 then 6 else d - 1)

/-- The function `getWeekdaySubmissions` (dashboard.js 195-204). -/
def getWeekdaySubmissions (h : Host) (allSubmissions : List Submission) : List Nat :=
  allSubmissions.foldl (fun weekdays submission =>
    let day := getDay h.tz (newDate submission.timestamp)
    increment weekdays (weekdayIndex day)) (List.replicate 7 0)

/-! ## ECMAScript numbers (IEEE 754 binary64) as far as `generateInsights` needs them -/

/-- Nearest integer to `n / d`, ties to the even one. -/
def roundHalfEven (n d : Nat) : Nat :=
  let q := n / d
  let r := n % d
  if 2 * r < d then q
  else if d < 2 * r then q + 1
  else if q % 2 = 0 then q else q + 1

/-- Numerator of `(n / d) / 2 ^ e`. -/
def scaleNum (n : Nat) (e : Int) : Nat := if e < 0 then n * 2 ^ (-e).toNat else n

/-- Denominator of `(n / d) / 2 ^ e`. -/
def scaleDen (d : Nat) (e : Int) : Nat := if e < 0 then d else d * 2 ^ e.toNat

/-- Number of halvings that bring `n` below 2, with `fuel` bounding the recursion. -/
def halvings : Nat → Nat → Nat
  | 0, _ => 0
  | fuel + 1, n => if n < 2 then 0 else halvings fuel (n / 2) + 1

/-- The integer binary logarithm `floor (log2 n)` of a positive `n`. -/
def ilog2 (n : Nat) : Nat := halvings n n

/-- The exponent `e` with `2 ^ 52 ≤ (n / d) / 2 ^ e < 2 ^ 53`, for positive `n` and `d`. -/
def binade (n d : Nat) : Int :=
  let e0 : Int := (ilog2 n : Int) - (ilog2 d : Int) - 52
  if scaleNum n e0 < 2 ^ 52 * scaleDen d e0 then e0 - 1 else e0

/-- The binary64 number nearest to the positive rational `n / d` (round to nearest, ties
to even), as a pair `(m, e)` meaning `m * 2 ^ e` with a 53-bit significand `m`.  The
exponent range of binary64 is not limited here: the operands of the dashboard are far from
overflow and underflow. -/
def roundToDouble (n d : Nat) : Nat × Int :=
  let e := binade n d
  (roundHalfEven (scaleNum n e) (scaleDen d e), e)

/-- An ECMAScript Number: `NaN`, an infinity, or the finite value `num * 2 ^ exp`
(zero when `num = 0`; the sign of zero is not tracked). -/
inductive JSNumber where
  | nan
  | inf (negative : Bool)
  | fin (num : Int) (exp : Int)
deriving DecidableEq

/-- The integer `k` as a Number (exact below `2 ^ 53`). -/
def JSNumber.ofInt (k : Int) : JSNumber := JSNumber.fin k 0

/-- The value of a finite Number as a rational. -/
def JSNumber.toRat : JSNumber → ℚ
  | JSNumber.fin m e => (m : ℚ) * (2 : ℚ) ^ e
  | _ => 0

/-- The operator `a / b` on two integral Numbers that are exact (array lengths, their
differences, sums of string lengths). -/
def numDiv (a b : Int) : JSNumber :=
  if b = 0 then
    if a = 0 then JSNumber.nan else JSNumber.inf (decide (a < 0))
  else if a = 0 then JSNumber.fin 0 0
  else
    let r := roundToDouble a.natAbs b.natAbs
    JSNumber.fin (if (a < 0) = (b < 0) then (r.1 : Int) else -(r.1 : Int)) r.2

/-- The operator `x * k` for a Number `x` and a positive integer constant `k`: the exact
product `|m| * k * 2 ^ e` is the fraction `scaleDen (|m| * k) e / scaleNum 1 e`, which is
then rounded. -/
def numMul (x : JSNumber) (k : Nat) : JSNumber :=
  match x with
  | JSNumber.nan => JSNumber.nan
  | JSNumber.inf s => JSNumber.inf s
  | JSNumber.fin m e =>
    if m = 0 then JSNumber.fin 0 0
    else
      let r := roundToDouble (scaleDen (m.natAbs * k) e) (scaleNum 1 e)
      JSNumber.fin (if m < 0 then -(r.1 : Int) else (r.1 : Int)) r.2

/-- The function `Math.round`: the integer nearest to `x`, ties toward positive infinity,
which is `floor (x + 1/2)`. -/
def mathRound (x : JSNumber) : JSNumber :=
  match x with
  | JSNumber.nan => JSNumber.nan
  | JSNumber.inf s => JSNumber.inf s
  | JSNumber.fin m e =>
    if e < 0 then JSNumber.fin ((2 * m + 2 ^ (-e).toNat) / 2 ^ ((-e).toNat + 1)) 0
    else JSNumber.fin (m * 2 ^ e.toNat) 0

/-! ## `generateInsights` -/

/-- The call `Math.max(...arr)` on an array of counters. -/
def mathMax (arr : List Nat) : Nat := arr.foldl max 0

/-- The method `Array.prototype.indexOf` (`-1` when the value is absent). -/
def indexOf (arr : List Nat) (v : Nat) : Int :=
  if arr.indexOf v < arr.length then (arr.indexOf v : Int) else -1

/-- The array read `arr[i]`; `none` is `undefined`. -/
def arrayGet {α : Type} (arr : List α) (i : Int) : Option α :=
  if 0 ≤ i then arr.get? i.toNat else none

/-- The constant `weekdayNames` of `generateInsights`. -/
def weekdayNames : List String :=
  ["Sunday", "Monday", "Tuesday", "Wednesday", "Thursday", "Friday", "Saturday"]

/-- The values computed by `generateInsights`, which it renders into the insights list. -/
structure Insights where
  peakHour : Int
  avgLength : JSNumber
  mostActiveDay : Option String
  thisWeek : Nat
  lastWeek : Nat
  growthRate : JSNumber

/-- The function `generateInsights` (dashboard.js 342-388). -/
def generateInsights (h : Host) (now : Int) (allSubmissions : List Submission) : Insights :=
  let hours := allSubmissions.foldl (fun hours s =>
    let hour := getHours h.tz (newDate s.timestamp)
    increment hours hour) (List.replicate 24 0)
  let peakHour := indexOf hours (mathMax hours)
  let avgLength := mathRound
    (numDiv (allSubmissions.foldl (fun sum s => sum + utf16Length s.message) 0)
      allSubmissions.length)
  let weekdayData := getWeekdaySubmissions h allSubmissions
  let mostActiveDay := arrayGet weekdayNames (indexOf weekdayData (mathMax weekdayData) + 1)
  let thisWeek := (allSubmissions.filter (fun s =>
    let date := newDate s.timestamp
    let weekAgo := newDate now
    let weekAgo := setDate h.tz weekAgo (dateMinus h.tz weekAgo 7)
    dateGt date weekAgo)).length
  let lastWeek := (allSubmissions.filter (fun s =>
    let date := newDate s.timestamp
    let weekAgo := newDate now
    let weekAgo := setDate h.tz weekAgo (dateMinus h.tz weekAgo 7)
    let twoWeeksAgo := newDate now
    let twoWeeksAgo := setDate h.tz twoWeeksAgo (dateMinus h.tz twoWeeksAgo 14)
    dateLe date weekAgo && dateGt date twoWeeksAgo)).length
  let growthRate :=
    if lastWeek ≠ 0 then
      mathRound (numMul (numDiv ((thisWeek : Int) - (lastWeek : Int)) (lastWeek : Int)) 100)
    else JSNumber.ofInt 0
  { peakHour := peakHour
    avgLength := avgLength
    mostActiveDay := mostActiveDay
    thisWeek := thisWeek
    lastWeek := lastWeek
    growthRate := growthRate }

/-! ## Ordinary objects used as counting maps, and `updateAnalytics` -/

/-- The method `String.prototype.split` with a one-character separator. -/
def splitChars (sep : Char) : List Char → List (List Char)
  | [] => [[]]
  | c :: cs =>
    if c = sep then [] :: splitChars sep cs
    else
      match splitChars sep cs with
      | p :: ps => (c :: p) :: ps
      | [] => [[c]]

/-- The expression `s.email.split('@')[1]` used as a property key: the second piece, or the
key `undefined` when the address has no `@`. -/
def emailDomain (email : String) : String :=
  match splitChars '@' email.data with
  | _ :: d :: _ => String.mk d
  | _ => "undefined"

/-- Decimal value of a list of digits, `none` when a character is not a digit. -/
def digitsValue : List Char → Nat → Option Nat
  | [], acc => some acc
  | c :: cs, acc =>
    if '0' ≤ c ∧ c ≤ '9' then digitsValue cs (acc * 10 + (c.toNat - 48)) else none

/-- The array index denoted by a property key: the key is the canonical decimal text of an
integer in `0 .. 2^32 - 2`. -/
def arrayIndex (key : String) : Option Nat :=
  match key.data with
  | [] => none
  | c :: cs =>
    if c = '0' ∧ cs ≠ [] then none
    else
      match digitsValue (c :: cs) 0 with
      | some n => if n ≤ 4294967294 then some n else none
      | none => none

/-- A value stored in a counting map: a number, or a text that is not a number. -/
inductive Cell where
  | number (n : Nat)
  | text
deriving DecidableEq

/-- The own enumerable properties of an ordinary object, in creation order. -/
abbrev JSObject := List (String × Cell)

/-- The property names every ordinary object inherits from `Object.prototype`. -/
def objectPrototypeNames : List String :=
  ["constructor", "__defineGetter__", "__defineSetter__", "hasOwnProperty",
   "__lookupGetter__", "__lookupSetter__", "isPrototypeOf", "propertyIsEnumerable",
   "toString", "valueOf", "__proto__", "toLocaleString"]

/-- The own value of `key`, if any. -/
def ownValue (o : JSObject) (key : String) : Option Cell :=
  match o with
  | [] => none
  | p :: ps => if p.1 = key then some p.2 else ownValue ps key

/-- Overwrite the own value of `key`. -/
def setOwn (o : JSObject) (key : String) (v : Cell) : JSObject :=
  o.map (fun p => if p.1 = key then (key, v) else p)

/-- The statement `o[key] = (o[key] || 0) + 1`.
* An own number `n` becomes `n + 1`; an own text stays a text (`text + 1` concatenates).
* A key that is not an own property and names a member of `Object.prototype` reads that
  member, a function, and `function + 1` is a text; the assignment creates an own property,
  except for `__proto__`, whose setter ignores a text.
* Any other new key reads `undefined`, and `(undefined || 0) + 1` is `1`. -/
def tally (o : JSObject) (key : String) : JSObject :=
  match ownValue o key with
  | some (Cell.number n) => setOwn o key (Cell.number (n + 1))
  | some Cell.text => setOwn o key Cell.text
  | none =>
    if key = "__proto__" then o
    else if key ∈ objectPrototypeNames then o ++ [(key, Cell.text)]
    else o ++ [(key, Cell.number 1)]

/-- Order of two properties whose keys are array indices: ascending index. -/
def indexLe (p q : String × Cell) : Prop :=
  (arrayIndex p.1).getD 0 ≤ (arrayIndex q.1).getD 0

instance indexLeDecidable : DecidableRel indexLe :=
  fun p q => inferInstanceAs (Decidable ((arrayIndex p.1).getD 0 ≤ (arrayIndex q.1).getD 0))

/-- The function `Object.entries`: array-index keys in ascending numeric order, then the
other keys in creation order. -/
def objectEntries (o : JSObject) : List (String × Cell) :=
  (o.filter (fun p => (arrayIndex p.1).isSome)).insertionSort indexLe ++
    o.filter (fun p => !(arrayIndex p.1).isSome)

/-- The function `Object.keys`. -/
def objectKeys (o : JSObject) : List String := (objectEntries o).map (fun p => p.1)

/-- The function `Object.values`. -/
def objectValues (o : JSObject) : List Cell := (objectEntries o).map (fun p => p.2)

/-- The comparator `(a, b) => b[1] - a[1]`; a difference that is `NaN` (a text operand)
counts as `0`, as `Array.prototype.sort` prescribes. -/
def compareFn (a b : String × Cell) : Int :=
  match b.2, a.2 with
  | Cell.number y, Cell.number x => (y : Int) - (x : Int)
  | _, _ => 0

/-- The order `a` before-or-level-with `b` induced by the comparator. -/
def sortLe (a b : String × Cell) : Prop := compareFn a b ≤ 0

instance sortLeDecidable : DecidableRel sortLe :=
  fun a b => inferInstanceAs (Decidable (compareFn a b ≤ 0))

/-- The method `Array.prototype.sort(compareFn)`, which is stable.  On numeric counts the
comparator is a consistent order and every conforming sort returns this array. -/
def arraySort (arr : List (String × Cell)) : List (String × Cell) :=
  arr.insertionSort sortLe

/-- What `updateAnalytics` hands to the pie chart and to the domains list. -/
structure Analytics where
  labels : List String
  data : List Cell
  domainsList : List (String × Cell)

/-- The function `updateAnalytics` (dashboard.js 290-335). -/
def updateAnalytics (allSubmissions : List Submission) : Analytics :=
  let subjects := allSubmissions.foldl (fun subjects s => tally subjects s.subject) []
  let domains := allSubmissions.foldl (fun domains s =>
    let domain := emailDomain s.email
    tally domains domain) []
  { labels := (objectKeys subjects).take 5
    data := (objectValues subjects).take 5
    domainsList := (arraySort (objectEntries domains)).take 5 }

/-! ## `loadData` -/

/-- The value stored under one key of the snapshot: the five fields a submission is written
with, and `id`, a stored child named `id`, which such a record does not have. -/
structure StoredRecord where
  id : Option String
  name : String
  email : String
  subject : String
  message : String
  timestamp : Int
deriving DecidableEq

/-- The value of a snapshot of `submissions`: an object from keys to stored records, given
by its own properties in creation order. -/
abbrev SnapshotValue := List (String × StoredRecord)

/-- Order of two snapshot properties whose keys are array indices: ascending index. -/
def snapshotIndexLe (p q : String × StoredRecord) : Prop :=
  (arrayIndex p.1).getD 0 ≤ (arrayIndex q.1).getD 0

instance snapshotIndexLeDecidable : DecidableRel snapshotIndexLe :=
  fun p q => inferInstanceAs (Decidable ((arrayIndex p.1).getD 0 ≤ (arrayIndex q.1).getD 0))

/-- The function `Object.entries` on a snapshot value: array-index keys in ascending numeric
order, then the other keys in creation order. -/
def snapshotEntries (data : SnapshotValue) : List (String × StoredRecord) :=
  (data.filter (fun p => (arrayIndex p.1).isSome)).insertionSort snapshotIndexLe ++
    data.filter (fun p => !(arrayIndex p.1).isSome)

/-- The object literal `{ id, ...submission }`: the key is written first and the own
properties of `submission` are copied after it, so a stored `id` replaces the key. -/
def mergeId (id : String) (submission : StoredRecord) : Submission :=
  { id := submission.id.getD id
    name := submission.name
    email := submission.email
    subject := submission.subject
    message := submission.message
    timestamp := submission.timestamp }

/-- The listener registered by `loadData` (dashboard.js 68-84) as a transition of the module
state; `data` is `snapshot.val()`, with `none` for `null`. -/
def loadData (data : Option SnapshotValue) (st : Dashboard) : Dashboard :=
  match data with
  | some data =>
    { allSubmissions := (snapshotEntries data).map (fun p => mergeId p.1 p.2)
      currentPage := st.currentPage }
  | none => { allSubmissions := [], currentPage := st.currentPage }

/-- One call of `filterTable`: the clock value and the values of the two form controls. -/
structure FilterCall where
  now : Int
  searchInput : String
  filterSelect : String

/-- Successive calls of `filterTable` with no snapshot in between. -/
def filterTableCalls (h : Host) (calls : List FilterCall) (st : Dashboard) : Dashboard :=
  calls.foldl (fun st c => filterTable h c.now c.searchInput c.filterSelect st) st

/-! ## The submit handler of `script.js` -/

/-- The UTF-16 code units of a string. -/
def utf16Units (s : String) : List Nat :=
  s.data.flatMap (fun c =>
    if c.toNat < 65536 then [c.toNat]
    else [55296 + (c.toNat - 65536) / 1024, 56320 + (c.toNat - 65536) % 1024])

/-- The characters removed by `String.prototype.trim`: white space and line terminators. -/
def isTrimSpace (c : Char) : Bool :=
  [9, 10, 11, 12, 13, 32, 160, 5760, 8192, 8193, 8194, 8195, 8196, 8197, 8198, 8199,
   8200, 8201, 8202, 8232, 8233, 8239, 8287, 12288, 65279].contains c.toNat

/-- The method `String.prototype.trim`. -/
def trim (s : String) : String :=
  String.mk (((s.data.dropWhile isTrimSpace).reverse.dropWhile isTrimSpace).reverse)

/-- One pattern character of a regular expression without the `u` flag, matched against one
code unit: a literal, a negated class `[^...]`, or `.` (anything but a line terminator). -/
inductive CharSet where
  | unit (u : Nat)
  | noneOf (us : List Nat)
  | dot

/-- Whether a pattern character matches a code unit. -/
def CharSet.accepts : CharSet → Nat → Bool
  | CharSet.unit u, x => x == u
  | CharSet.noneOf us, x => !(us.contains x)
  | CharSet.dot, x => !([10, 13, 8232, 8233].contains x)

/-- Regular expressions over code units. -/
inductive Regex where
  | fail
  | eps
  | set (k : CharSet)
  | seq (a b : Regex)
  | alt (a b : Regex)
  | star (a : Regex)

/-- The quantifier `+`. -/
def Regex.plus (a : Regex) : Regex := Regex.seq a (Regex.star a)

/-- Whether a regular expression matches the empty input. -/
def Regex.nullable : Regex → Bool
  | Regex.fail => false
  | Regex.eps => true
  | Regex.set _ => false
  | Regex.seq a b => a.nullable && b.nullable
  | Regex.alt a b => a.nullable || b.nullable
  | Regex.star _ => true

/-- The regular expression of what may follow the code unit `x`. -/
def Regex.deriv : Regex → Nat → Regex
  | Regex.fail, _ => Regex.fail
  | Regex.eps, _ => Regex.fail
  | Regex.set k, x => if k.accepts x then Regex.eps else Regex.fail
  | Regex.seq a b, x =>
    if a.nullable then Regex.alt (Regex.seq (a.deriv x) b) (b.deriv x)
    else Regex.seq (a.deriv x) b
  | Regex.alt a b, x => Regex.alt (a.deriv x) (b.deriv x)
  | Regex.star a, x => Regex.seq (a.deriv x) (Regex.star a)

/-- The method `RegExp.prototype.test` for a pattern anchored by `^` and `$` (no flags):
the pattern between the anchors matches the whole input. -/
def regexTest (r : Regex) (s : String) : Bool :=
  ((utf16Units s).foldl Regex.deriv r).nullable

/-- The class `[^\\s@]` of the source: in a regular expression literal `\\` is an escaped
backslash, so the class excludes the backslash (92), the letter `s` (115) and `@` (64). -/
def sourceClass : Regex := Regex.set (CharSet.noneOf [92, 115, 64])

/-- The constant `emailRegex` (script.js 25), `/^[^\\s@]+@[^\\s@]+\\.[^\\s@]+$/`: the class,
`@`, the class, an escaped backslash, `.` (any code unit but a line terminator), the
class. -/
def emailRegex : Regex :=
  Regex.seq sourceClass.plus
    (Regex.seq (Regex.set (CharSet.unit 64))
      (Regex.seq sourceClass.plus
        (Regex.seq (Regex.set (CharSet.unit 92))
          (Regex.seq (Regex.set CharSet.dot) sourceClass.plus))))

/-- The record handed to `saveToFirebase`. -/
structure FormData where
  name : String
  email : String
  subject : String
  message : String
  timestamp : Int
deriving DecidableEq

/-- What the submit handler leaves behind: the text of the three error elements (empty
after `clearErrors`) and the record passed to `saveToFirebase`, if any. -/
structure SubmitResult where
  nameError : String
  emailError : String
  messageError : String
  saved : Option FormData
deriving DecidableEq

/-- The submit handler (script.js 5-66) up to the call of `saveToFirebase`; `now` is the
value of `Date.now()` and the four strings are the values of the form fields. -/
def submitHandler (now : Int) (nameInput emailInput subjectInput messageInput : String) :
    SubmitResult :=
  let name := trim nameInput
  let email := trim emailInput
  let subject := trim subjectInput
  let message := trim messageInput
  let isValid := true
  let nameError := if utf16Length name < 2 then "Name must be at least 2 characters long" else ""
  let isValid := if utf16Length name < 2 then false else isValid
  let emailError := if !regexTest emailRegex email then "Please enter a valid email address"
    else ""
  let isValid := if !regexTest emailRegex email then false else isValid
  let messageError :=
    if utf16Length message < 10 then "Message must be at least 10 characters long" else ""
  let isValid := if utf16Length message < 10 then false else isValid
  { nameError := nameError
    emailError := emailError
    messageError := messageError
    saved :=
      if isValid then
        some { name := name, email := email, subject := subject, message := message,
               timestamp := now }
      else none }

/-! ## Notions of the specification -/

/-- A valid time value: within `8.64e15` milliseconds of the epoch. -/
def validTime (t : Int) : Prop := -maxTime ≤ t ∧ t ≤ maxTime

instance validTimeDecidable (t : Int) : Decidable (validTime t) :=
  inferInstanceAs (Decidable (-maxTime ≤ t ∧ t ≤ maxTime))

/-- The local calendar day of a time value, as a day number: the time value moved by the
offset of the zone in force at it, in whole days. -/
def localDay (tz : Zone) (t : Int) : Int := (t + tz.LocalTZA t true) / msPerDay

/-- The time-window predicate in the words of the specification: `all` always; `today` the
same local calendar day as `now`; `week` within the trailing 7 x 24 h; `month` within the
trailing 30 x 24 h. -/
def inWindow (tz : Zone) (now : Int) (selector : String) (t : Int) : Bool :=
  if selector = "today" then decide (localDay tz t = localDay tz now)
  else if selector = "week" then decide (t > now - 7 * 24 * 3600000)
  else if selector = "month" then decide (t > now - 30 * 24 * 3600000)
  else true

/-- The search predicate in the words of the specification: the search string is empty, or
its lower-cased form occurs in the lower-cased name, email, subject or message. -/
def matchesSearch (h : Host) (search : String) (r : Submission) : Bool :=
  decide (search = "") ||
    (includes (h.toLowerCase r.name) (h.toLowerCase search) ||
     includes (h.toLowerCase r.email) (h.toLowerCase search) ||
     includes (h.toLowerCase r.subject) (h.toLowerCase search) ||
     includes (h.toLowerCase r.message) (h.toLowerCase search))

/-- The filter of the specification: the records in the time window that match the search,
in their original order. -/
def filterSpec (h : Host) (now : Int) (search selector : String) (W : List Submission) :
    List Submission :=
  W.filter (fun r => inWindow h.tz now selector r.timestamp && matchesSearch h search r)

/-- The time-window predicate restricted to valid time values under the selectors other
than `all`. -/
def inValidWindow (tz : Zone) (now : Int) (selector : String) (t : Int) : Bool :=
  if selector = "all" then true else decide (validTime t) && inWindow tz now selector t

/-- The local day-of-week index of a timestamp (0 = Sunday .. 6 = Saturday); `none` when
the timestamp is not a valid time value.  1970-01-01 was a Thursday. -/
def localWeekday (tz : Zone) (t : Int) : Option Int :=
  if validTime t then some ((localDay tz t + 4) % 7) else none

/-- The Mon..Sun bucket of a day-of-week index: 6 for Sunday (0), `d - 1` otherwise. -/
def weekdayBucket (d : Int) : Int := if d = 0 then 6 else d - 1

/-- Whether a record falls into the Mon..Sun bucket `k`. -/
def inWeekdayBucket (tz : Zone) (k : Nat) (r : Submission) : Bool :=
  match localWeekday tz r.timestamp with
  | some d => decide ((k : Int) = weekdayBucket d)
  | none => false

/-- Whether a record has a valid timestamp on the local calendar day `day`. -/
def onLocalDay (tz : Zone) (day : Int) (r : Submission) : Bool :=
  decide (validTime r.timestamp) && decide (localDay tz r.timestamp = day)

/-- Whether a record has a valid timestamp on a local calendar day in `lo .. hi`. -/
def inLocalDays (tz : Zone) (lo hi : Int) (r : Submission) : Bool :=
  decide (validTime r.timestamp) &&
    (decide (lo ≤ localDay tz r.timestamp) && decide (localDay tz r.timestamp ≤ hi))

/-- The label of a calendar day: its month (0 = January) and its day of the month. -/
def dayLabel (day : Int) : Int × Int := ((civilFromDays day).2.1, (civilFromDays day).2.2)

/-- The distinct strings of a list in order of first occurrence. -/
def firstOccurrences : List String → List String
  | [] => []
  | x :: xs => x :: (firstOccurrences xs).filter (fun y => y ≠ x)

/-- Order of two keys that are array indices: ascending index. -/
def keyLe (a b : String) : Prop := (arrayIndex a).getD 0 ≤ (arrayIndex b).getD 0

instance keyLeDecidable : DecidableRel keyLe :=
  fun a b => inferInstanceAs (Decidable ((arrayIndex a).getD 0 ≤ (arrayIndex b).getD 0))

/-- The property order of JavaScript on a list of distinct keys given in creation order:
the keys that are array indices in ascending numeric order, then the other keys in
creation order. -/
def keyOrder (keys : List String) : List String :=
  (keys.filter (fun k => (arrayIndex k).isSome)).insertionSort keyLe ++
    keys.filter (fun k => !(arrayIndex k).isSome)

/-- The text after the first `@` of an address, if there is an `@`. -/
def afterAt : List Char → Option (List Char)
  | [] => none
  | c :: cs => if c = '@' then some cs else afterAt cs

/-- The subjects of a record list, in record order. -/
def subjectsOf (W : List Submission) : List String := W.map (fun r => r.subject)

/-- The domain keys of a record list, in record order. -/
def domainsOf (W : List Submission) : List String := W.map (fun r => emailDomain r.email)

/-- Ranking order of two domains of a record list: `a` is not behind `b` when it has at
least as many records. -/
def rankLe (doms : List String) (a b : String) : Prop := doms.count b ≤ doms.count a

instance rankLeDecidable (doms : List String) : DecidableRel (rankLe doms) :=
  fun a b => inferInstanceAs (Decidable (doms.count b ≤ doms.count a))

/-- The growth rate in the words of the specification, in exact arithmetic:
`round ((thisWeek - lastWeek) / lastWeek * 100)` for a non-zero `lastWeek`, where `round`
is rounding to the nearest integer with halves toward positive infinity. -/
def growthExact (thisWeek lastWeek : Nat) : Int :=
  ⌊((thisWeek : ℚ) - (lastWeek : ℚ)) / (lastWeek : ℚ) * 100 + 1 / 2⌋

/-- The instant `k` calendar days before `now` in the zone: the local clock reading of
`now` moved back by `k` days, read as a local time of the zone.  In a zone with a fixed
offset it is `now - k * 24 h`; across a daylight-saving transition it differs from that
by the change of the offset. -/
def daysBefore (tz : Zone) (now k : Int) : Int :=
  now + tz.LocalTZA now true - k * msPerDay -
    tz.LocalTZA (now + tz.LocalTZA now true - k * msPerDay) false

/-- Whether a record has a valid timestamp later than the instant `k` calendar days before
`now`. -/
def laterThanDaysAgo (tz : Zone) (now k : Int) (r : Submission) : Bool :=
  decide (validTime r.timestamp) && decide (r.timestamp > daysBefore tz now k)

/-- Whether a record has a valid timestamp in the window from the instant 14 calendar days
before `now` (excluded) to the instant 7 calendar days before `now` (included). -/
def inPreviousWeek (tz : Zone) (now : Int) (r : Submission) : Bool :=
  decide (validTime r.timestamp) &&
    (decide (r.timestamp ≤ daysBefore tz now 7) && decide (r.timestamp > daysBefore tz now 14))

/-- The week window in the words of the specification: the timestamp is later than
`now - 7 x 24 h`. -/
def inTrailingWeek (now : Int) (r : Submission) : Bool :=
  decide (r.timestamp > now - 7 * msPerDay)

/-- The previous-week window in the words of the specification:
`now - 14 days < timestamp <= now - 7 days`, in days of 24 hours. -/
def inTrailingPreviousWeek (now : Int) (r : Submission) : Bool :=
  decide (now - 14 * msPerDay < r.timestamp) && decide (r.timestamp ≤ now - 7 * msPerDay)

/-- The integer nearest to a rational, a tie going to the even integer (the rounding
`roundTiesToEven` of IEEE 754). -/
def roundTiesToEven (x : ℚ) : Int :=
  if x - ⌊x⌋ < 1 / 2 then ⌊x⌋
  else if 1 / 2 < x - ⌊x⌋ then ⌊x⌋ + 1
  else if ⌊x⌋ % 2 = 0 then ⌊x⌋ else ⌊x⌋ + 1

/-- The relation "`y` is the binary64 value of the real number `q`" of IEEE 754, for `q`
in the normal range: zero for zero; otherwise, with `e` the exponent for which
`2 ^ 52 <= |q| / 2 ^ e < 2 ^ 53` (53 significant bits), `y` has the sign of `q` and the
magnitude `m * 2 ^ e`, where `m` is the integer nearest to `|q| / 2 ^ e`, ties to even.
The quotients and products of `generateInsights` are far from overflow and underflow. -/
def IsBinary64Of (q y : ℚ) : Prop :=
  (q = 0 ∧ y = 0) ∨
    ∃ e : Int, (2 : ℚ) ^ (52 : Nat) * (2 : ℚ) ^ e ≤ |q| ∧
      |q| < (2 : ℚ) ^ (53 : Nat) * (2 : ℚ) ^ e ∧
      y = (if q < 0 then -1 else 1) *
        ((roundTiesToEven (|q| / (2 : ℚ) ^ e) : Int) : ℚ) * (2 : ℚ) ^ e

/-- The class `[^\s@]` of the specification: any code unit that is neither white space (the
class `\s`) nor `@`. -/
def intendedClass : Regex :=
  Regex.set (CharSet.noneOf
    [64, 9, 10, 11, 12, 13, 32, 160, 5760, 8192, 8193, 8194, 8195, 8196, 8197, 8198, 8199,
     8200, 8201, 8202, 8232, 8233, 8239, 8287, 12288, 65279])

/-- The email pattern in the words of the specification, `local@domain.tld`: one or more
characters that are neither white space nor `@`, then `@`, then one or more such
characters, then `.`, then one or more such characters. -/
def intendedEmailPattern : Regex :=
  Regex.seq intendedClass.plus
    (Regex.seq (Regex.set (CharSet.unit 64))
      (Regex.seq intendedClass.plus
        (Regex.seq (Regex.set (CharSet.unit 46)) intendedClass.plus)))

/-- The condition of the specification for saving a form input. -/
def formAccepted (nameInput emailInput messageInput : String) : Bool :=
  decide (2 ≤ utf16Length (trim nameInput)) &&
    regexTest intendedEmailPattern (trim emailInput) &&
    decide (10 ≤ utf16Length (trim messageInput))

/-- The ids of a working set, in order. -/
def idsOf (W : List Submission) : List String := W.map (fun r => r.id)

/-! ## Lemmas on time values -/

theorem TimeClip_of_valid {t : Int} (h : validTime t) : TimeClip t = some t := by
  exact if_pos h

theorem TimeClip_of_invalid {t : Int} (h : ¬ validTime t) : TimeClip t = none := by
  exact if_neg h

theorem yearOfEra_bounds (doe : Int) (h0 : 0 ≤ doe) (h1 : doe < 146097) :
    0 ≤ (doe - doe / 1460 + doe / 36524 - doe / 146096) / 365 ∧
    (doe - doe / 1460 + doe / 36524 - doe / 146096) / 365 ≤ 399 ∧
    0 ≤ doe - (365 * ((doe - doe / 1460 + doe / 36524 - doe / 146096) / 365) +
      (doe - doe / 1460 + doe / 36524 - doe / 146096) / 365 / 4 -
      (doe - doe / 1460 + doe / 36524 - doe / 146096) / 365 / 100) ∧
    doe - (365 * ((doe - doe / 1460 + doe / 36524 - doe / 146096) / 365) +
      (doe - doe / 1460 + doe / 36524 - doe / 146096) / 365 / 4 -
      (doe - doe / 1460 + doe / 36524 - doe / 146096) / 365 / 100) ≤ 365 := by
  have hc : 0 ≤ doe / 36524 ∧ doe / 36524 ≤ 4 := by omega
  have hy : 0 ≤ (doe - doe / 1460 + doe / 36524 - doe / 146096) / 365 ∧
      (doe - doe / 1460 + doe / 36524 - doe / 146096) / 365 ≤ 399 := by omega
  have hf : 0 ≤ (doe - doe / 1460 + doe / 36524 - doe / 146096) / 365 / 100 ∧
      (doe - doe / 1460 + doe / 36524 - doe / 146096) / 365 / 100 ≤ 3 := by omega
  generalize hyy : (doe - doe / 1460 + doe / 36524 - doe / 146096) / 365 = yoe at *
  generalize hcc : doe / 36524 = c at *
  generalize hff : yoe / 100 = f at *
  obtain ⟨hc0, hc1⟩ := hc
  obtain ⟨hf0, hf1⟩ := hf
  interval_cases c <;> interval_cases f <;> omega

/-- The month of a civil date is in `0..11`. -/
theorem civilFromDays_month (z : Int) :
    0 ≤ (civilFromDays z).2.1 ∧ (civilFromDays z).2.1 ≤ 11 := by
  simp only [civilFromDays]
  generalize hdoe : (z + 719468) % 146097 = doe
  have hdoe0 : 0 ≤ doe ∧ doe < 146097 := by omega
  have hb := yearOfEra_bounds doe hdoe0.1 hdoe0.2
  generalize hyoe : (doe - doe / 1460 + doe / 36524 - doe / 146096) / 365 = yoe at hb ⊢
  generalize hdoy : doe - (365 * yoe + yoe / 4 - yoe / 100) = doy at hb ⊢
  split_ifs <;> omega

/-- Converting a day number to a civil date and back is the identity. -/
theorem daysFromCivil_civilFromDays (z : Int) :
    daysFromCivil (civilFromDays z).1 (civilFromDays z).2.1 (civilFromDays z).2.2 = z := by
  simp only [daysFromCivil, civilFromDays]
  generalize hera : (z + 719468) / 146097 = era
  generalize hdoe : (z + 719468) % 146097 = doe
  have hdoe0 : 0 ≤ doe ∧ doe < 146097 := by omega
  have hz : z + 719468 = era * 146097 + doe := by omega
  have hb := yearOfEra_bounds doe hdoe0.1 hdoe0.2
  generalize hyoe : (doe - doe / 1460 + doe / 36524 - doe / 146096) / 365 = yoe at hb ⊢
  generalize hdoy : doe - (365 * yoe + yoe / 4 - yoe / 100) = doy at hb ⊢
  generalize hmp : (5 * doy + 2) / 153 = mp
  have hm : 0 ≤ mp ∧ mp ≤ 11 := by omega
  have hk1 : (yoe + era * 400 + 0) / 400 = era := by omega
  have hk2 : (yoe + era * 400 + 0) % 400 = yoe := by omega
  have hk3 : (yoe + era * 400 + 1 - 1) / 400 = era := by omega
  have hk4 : (yoe + era * 400 + 1 - 1) % 400 = yoe := by omega
  have hn1 : mp + 2 - 2 = mp := by omega
  have hn2 : mp - 10 + 10 = mp := by omega
  split_ifs <;> simp only [hk1, hk2, hk3, hk4, hn1, hn2] <;> omega

/-- The day number is affine in the day of the month. -/
theorem daysFromCivil_shift (y m d k : Int) :
    daysFromCivil y m (d - k) = daysFromCivil y m d - k := by
  simp only [daysFromCivil]
  omega

/-- `MakeDay` on the civil date of `t` with the day of the month moved back by `k` is the
day of `t` moved back by `k`. -/
theorem MakeDay_back (t k : Int) :
    MakeDay (YearFromTime t) (MonthFromTime t) (DateFromTime t - k) = Day t - k := by
  have hm := civilFromDays_month (Day t)
  have hr := daysFromCivil_civilFromDays (Day t)
  have hs := daysFromCivil_shift (civilFromDays (Day t)).1 (civilFromDays (Day t)).2.1
    (civilFromDays (Day t)).2.2 ((civilFromDays (Day t)).2.2 - 1)
  unfold MakeDay YearFromTime MonthFromTime DateFromTime
  have h1 : (civilFromDays (Day t)).2.1 / 12 = 0 := by omega
  have h2 : (civilFromDays (Day t)).2.1 % 12 = (civilFromDays (Day t)).2.1 := by omega
  rw [h1, h2, add_zero]
  have h3 : (civilFromDays (Day t)).2.2 - ((civilFromDays (Day t)).2.2 - 1) = 1 := by omega
  rw [h3] at hs
  omega

/-- The call `d.setDate(d.getDate() - k)` moves a valid date to the instant `k` calendar
days before it: the local time goes back by `k` days and is read in the zone again. -/
theorem setDate_back (tz : Zone) (t k : Int) (ht : validTime t) :
    setDate tz (newDate t) (dateMinus tz (newDate t) k) = TimeClip (daysBefore tz t k) := by
  simp only [newDate, TimeClip_of_valid ht, dateMinus, getDate, Option.map_some', setDate]
  congr 1
  rw [MakeDay_back]
  have e : MakeDate (Day (LocalTime tz t) - k) (TimeWithinDay (LocalTime tz t)) =
      LocalTime tz t - k * msPerDay := by
    simp only [MakeDate, Day, TimeWithinDay, msPerDay]
    omega
  rw [e]
  rfl

/-- In a zone with a fixed offset the instant `k` calendar days before `now` is
`now - k * 24 h`. -/
theorem daysBefore_fixedZone (offset now k : Int) :
    daysBefore (fixedZone offset) now k = now - k * msPerDay := by
  simp only [daysBefore, fixedZone]
  omega

/-- The local calendar day of the instant `k` calendar days before `now` is the local
calendar day of `now` minus `k`. -/
theorem localDay_daysBefore (tz : Zone) (now k : Int) :
    localDay tz (daysBefore tz now k) = localDay tz now - k := by
  have hs := tz.sameDay (now + tz.LocalTZA now true - k * msPerDay)
  simp only [Day] at hs
  unfold localDay daysBefore
  rw [hs]
  simp only [msPerDay]
  omega

/-- Two valid dates print the same `toDateString` text exactly when they fall on the same
local calendar day. -/
theorem toDateString_eq_iff (tz : Zone) (a b : Int) :
    toDateString tz (some a) = toDateString tz (some b) ↔ localDay tz a = localDay tz b := by
  simp only [toDateString, Option.map_some', Option.some.injEq, Prod.mk.injEq, localDay,
    YearFromTime, MonthFromTime, DateFromTime, LocalTime, WeekDay, Day]
  constructor
  · rintro ⟨-, hm, hd, hy⟩
    have h1 := daysFromCivil_civilFromDays ((a + tz.LocalTZA a true) / msPerDay)
    have h2 := daysFromCivil_civilFromDays ((b + tz.LocalTZA b true) / msPerDay)
    rw [hm, hd, hy] at h1
    exact h1.symm.trans h2
  · intro h
    rw [h]
    exact ⟨rfl, rfl, rfl, rfl⟩

theorem newDate_of_valid {t : Int} (h : validTime t) : newDate t = some t :=
  TimeClip_of_valid h

theorem newDate_of_invalid {t : Int} (h : ¬ validTime t) : newDate t = none :=
  TimeClip_of_invalid h

/-- A clock value that is valid and not before the epoch is a valid time value, and so are
the instants up to 30 days before it. -/
theorem validTime_back {now k : Int} (h0 : 0 ≤ now) (h1 : now ≤ maxTime) (hk0 : 0 ≤ k)
    (hk : k ≤ 30) : validTime (now - k * msPerDay) := by
  unfold validTime maxTime msPerDay at *
  constructor <;> nlinarith

/-- The instants up to 30 calendar days before a valid clock value that is not before the
epoch are valid time values, and none is later than the clock value. -/
theorem daysBefore_valid (tz : Zone) {now k : Int} (h0 : 0 ≤ now) (h1 : now ≤ maxTime)
    (hk0 : 0 ≤ k) (hk : k ≤ 30) :
    validTime (daysBefore tz now k) ∧ daysBefore tz now k ≤ now := by
  have s1 := tz.spread now true (now + tz.LocalTZA now true - k * msPerDay) false
  have s2 := tz.spread (now + tz.LocalTZA now true - k * msPerDay) false now true
  have e0 := tz.earliest now
  unfold validTime daysBefore
  have hle : now + tz.LocalTZA now true - k * msPerDay -
      tz.LocalTZA (now + tz.LocalTZA now true - k * msPerDay) false ≤ now := by
    by_cases hk1 : k = 0
    · subst hk1
      have e1 : now + tz.LocalTZA now true - 0 * msPerDay = now + tz.LocalTZA now true := by
        omega
      rw [e1]
      generalize tz.LocalTZA (now + tz.LocalTZA now true) false = c at e0 ⊢
      omega
    · generalize tz.LocalTZA (now + tz.LocalTZA now true - k * msPerDay) false = b at s1 s2 ⊢
      simp only [msPerDay] at s1 s2 ⊢
      omega
  generalize tz.LocalTZA (now + tz.LocalTZA now true - k * msPerDay) false = b at s1 s2 hle ⊢
  refine ⟨⟨?_, ?_⟩, hle⟩
  · simp only [msPerDay, maxTime] at s1 s2 ⊢
    omega
  · simp only [maxTime] at h1 ⊢
    omega

/-- `toDateString` of a record's date against a valid date: equal texts mean a valid
timestamp on the same local day. -/
theorem toDateString_beq (tz : Zone) (t b : Int) :
    (toDateString tz (newDate t) == toDateString tz (some b)) =
      (decide (validTime t) && decide (localDay tz t = localDay tz b)) := by
  by_cases ht : validTime t
  · rw [newDate_of_valid ht]
    simp only [ht, decide_True, Bool.true_and]
    rw [Bool.eq_iff_iff]
    simp only [beq_iff_eq, decide_eq_true_eq]
    exact toDateString_eq_iff tz t b
  · rw [newDate_of_invalid ht]
    simp [ht, toDateString]

/-- Comparing a record's date to a valid date. -/
theorem dateGt_newDate (t b : Int) :
    dateGt (newDate t) (some b) = (decide (validTime t) && decide (t > b)) := by
  by_cases ht : validTime t
  · rw [newDate_of_valid ht]
    simp [dateGt, ht]
  · rw [newDate_of_invalid ht]
    simp [dateGt, ht]

/-- Comparing a record's date to a valid date. -/
theorem dateLe_newDate (t b : Int) :
    dateLe (newDate t) (some b) = (decide (validTime t) && decide (t ≤ b)) := by
  by_cases ht : validTime t
  · rw [newDate_of_valid ht]
    simp [dateLe, ht]
  · rw [newDate_of_invalid ht]
    simp [dateLe, ht]

/-! ## Lemmas on strings -/

theorem startsWith_nil (s : List Char) : startsWith s [] = true := by
  cases s <;> rfl

theorem includesFrom_nil (s : List Char) : includesFrom s [] = true := by
  cases s with
  | nil => rfl
  | cons c s => simp [includesFrom, startsWith_nil]

/-- Every string includes the empty string. -/
theorem includes_empty (s : String) : includes s "" = true :=
  includesFrom_nil s.data

/-! ## The filter -/

/-- The time filter of `filterTable` for the four selectors, at a valid clock value. -/
theorem timeFilter_eq (h : Host) (now : Int) (h0 : 0 ≤ now) (h1 : now ≤ maxTime)
    (selector : String) (hsel : selector ∈ ["today", "week", "month"]) (r : Submission) :
    timeFilter h selector (newDate now) r = inValidWindow h.tz now selector r.timestamp := by
  have hv : validTime now := ⟨by unfold maxTime; omega, h1⟩
  have hw := validTime_back h0 h1 (k := 7) (by norm_num) (by norm_num)
  have hm := validTime_back h0 h1 (k := 30) (by norm_num) (by norm_num)
  simp only [msPerDay] at hw hm
  simp only [List.mem_cons, List.mem_singleton, List.not_mem_nil, or_false] at hsel
  rcases hsel with rfl | rfl | rfl
  · simp only [timeFilter, newDate_of_valid hv, toDateString_beq, inValidWindow, inWindow]
    simp
  · have e : newDate (now - 7 * 24 * 60 * 60 * 1000) = some (now - 7 * 24 * 60 * 60 * 1000) :=
      newDate_of_valid (by norm_num at hw ⊢; exact hw)
    simp only [timeFilter, newDate_of_valid hv, getTime, Option.bind, e, dateGt_newDate,
      inValidWindow, inWindow]
    simp
  · have e : newDate (now - 30 * 24 * 60 * 60 * 1000) = some (now - 30 * 24 * 60 * 60 * 1000) :=
      newDate_of_valid (by norm_num at hm ⊢; exact hm)
    simp only [timeFilter, newDate_of_valid hv, getTime, Option.bind, e, dateGt_newDate,
      inValidWindow, inWindow]
    simp

/-- C1 (as stated) fails: a record whose timestamp `8640000000000001` is an integer later
than `now - 7*24h` satisfies the stated `week` predicate, so the stated filter keeps it,
yet `new Date(8640000000000001)` is the Invalid Date, every comparison with it is false,
and `filterTable` drops the record. -/
theorem filterTable_week_counterexample :
    (filterTable utcHost 1700000000000 "" "week"
      { allSubmissions := [{ id := "k1", name := "Ann", email := "a@x.com", subject := "hi",
                             message := "hello there", timestamp := 8640000000000001 }],
        currentPage := 1 }).allSubmissions = [] ∧
    filterSpec utcHost 1700000000000 "" "week"
      [{ id := "k1", name := "Ann", email := "a@x.com", subject := "hi",
         message := "hello there", timestamp := 8640000000000001 }] =
      [{ id := "k1", name := "Ann", email := "a@x.com", subject := "hi",
         message := "hello there", timestamp := 8640000000000001 }] := by
  constructor
  · decide
  · decide

/-- C1 (amended): at a valid clock value, for each of the selectors `all`, `today`, `week`,
`month` and every search string, `filterTable` leaves exactly the records of the working
set, in their original order, that pass the time window and the search predicate, where
under `today`, `week` and `month` a record passes the window only if its timestamp is a
valid time value; with the empty search string the result is the records passing the time
window alone. -/
theorem filterTable_spec (h : Host) (hlow : h.toLowerCase "" = "") (now : Int)
    (h0 : 0 ≤ now) (h1 : now ≤ maxTime) (search selector : String)
    (hsel : selector ∈ ["all", "today", "week", "month"]) (st : Dashboard) :
    (filterTable h now search selector st).allSubmissions =
        st.allSubmissions.filter (fun r =>
          inValidWindow h.tz now selector r.timestamp && matchesSearch h search r) ∧
    (search = "" →
      (filterTable h now search selector st).allSubmissions =
        st.allSubmissions.filter (fun r => inValidWindow h.tz now selector r.timestamp)) := by
  have key : (filterTable h now search selector st).allSubmissions =
      st.allSubmissions.filter (fun r =>
        inValidWindow h.tz now selector r.timestamp && matchesSearch h search r) := by
    have htime : (if selector ≠ "all" then
          st.allSubmissions.filter (fun r => timeFilter h selector (newDate now) r)
        else st.allSubmissions) =
        st.allSubmissions.filter (fun r => inValidWindow h.tz now selector r.timestamp) := by
      by_cases hs : selector = "all"
      · subst hs
        simp [inValidWindow]
      · have hsel' : selector ∈ ["today", "week", "month"] := by
          simp only [List.mem_cons, List.mem_singleton, List.not_mem_nil, or_false] at hsel ⊢
          tauto
        rw [if_pos hs]
        apply List.filter_congr
        intro r _
        exact timeFilter_eq h now h0 h1 selector hsel' r
    simp only [filterTable]
    rw [htime]
    by_cases hq : h.toLowerCase search = ""
    · have hm : ∀ r, matchesSearch h search r = true := by
        intro r
        simp [matchesSearch, hq, includes_empty]
      simp [hq, hm]
    · have hne : search ≠ "" := by
        intro e
        exact hq (e ▸ hlow)
      rw [if_pos hq, List.filter_filter]
      apply List.filter_congr
      intro r _
      simp [matchesSearch, searchFilter, hne, Bool.and_comm]
  refine ⟨key, ?_⟩
  intro hs
  rw [key]
  apply List.filter_congr
  intro r _
  simp [matchesSearch, hs]

/-- C1 (amended), at a concrete working set: under `week` the record of three days ago is
kept, the record of ten days ago and the record with an invalid timestamp are dropped. -/
theorem filterTable_spec_witness :
    utcHost.toLowerCase "" = "" ∧ (0 : Int) ≤ 1700000000000 ∧ (1700000000000 : Int) ≤ maxTime ∧
    "week" ∈ ["all", "today", "week", "month"] ∧
    ((filterTable utcHost 1700000000000 "" "week"
        (Dashboard.mk
          [Submission.mk "k1" "Ann" "a@x.com" "hi" "hello there" 1699740800000,
           Submission.mk "k2" "Bob" "b@y.com" "yo" "good morning" 1699136000000,
           Submission.mk "k3" "Cy" "c@z.com" "re" "from the future" 8640000000000001]
          3)).allSubmissions =
      (Dashboard.mk
          [Submission.mk "k1" "Ann" "a@x.com" "hi" "hello there" 1699740800000,
           Submission.mk "k2" "Bob" "b@y.com" "yo" "good morning" 1699136000000,
           Submission.mk "k3" "Cy" "c@z.com" "re" "from the future" 8640000000000001]
          3).allSubmissions.filter (fun r =>
        inValidWindow utcHost.tz 1700000000000 "week" r.timestamp &&
          matchesSearch utcHost "" r)) :=
  ⟨by decide, by decide, by decide, by decide,
    (filterTable_spec utcHost (by decide) 1700000000000 (by decide) (by decide)
      "" "week" (by decide) _).1⟩

/-! ## The counters of `updateDashboard` -/

/-- The date `weekAgo` of `updateDashboard` and `generateInsights` at a valid clock value
not before the epoch. -/
theorem weekAgo_eq (h : Host) (now : Int) (h0 : 0 ≤ now) (h1 : now ≤ maxTime) (k : Int)
    (hk0 : 0 ≤ k) (hk : k ≤ 30) :
    setDate h.tz (newDate now) (dateMinus h.tz (newDate now) k) =
      some (daysBefore h.tz now k) := by
  have hv : validTime now := ⟨by unfold maxTime; omega, h1⟩
  rw [setDate_back h.tz now k hv]
  exact TimeClip_of_valid (daysBefore_valid h.tz h0 h1 hk0 hk).1

/-- A time value on the local day of `now` is later than the instant 7 calendar days before
`now`. -/
theorem sameDay_gt_weekAgo (tz : Zone) (t now : Int) (hd : localDay tz t = localDay tz now) :
    t > daysBefore tz now 7 := by
  have s1 := tz.spread t true (now + tz.LocalTZA now true - 7 * msPerDay) false
  unfold localDay at hd
  unfold daysBefore
  generalize tz.LocalTZA (now + tz.LocalTZA now true - 7 * msPerDay) false = b at s1 ⊢
  generalize tz.LocalTZA now true = a at hd ⊢
  generalize tz.LocalTZA t true = c at hd s1
  simp only [msPerDay] at *
  omega

/-- C2 (as stated) fails in the description of the week count.  A record whose timestamp
`8640000000000001` is an integer later than `now - 7 x 24 h` is counted by the stated week
window, but `new Date(8640000000000001)` is the Invalid Date, the comparison with `weekAgo`
is false, and `updateDashboard` counts 0.  In the zone `easternZone`, at noon of
2023-11-08 (17:00 UTC), `weekAgo.setDate(weekAgo.getDate() - 7)` is noon of 2023-11-01 in
daylight-saving time, 16:00 UTC, which is 169 hours back: the record of 16:30 UTC of that
day is counted by `updateDashboard` (week count 2) and is not later than `now - 7 x 24 h`
(stated week count 1). -/
theorem updateDashboard_week_counterexample :
    (updateDashboard utcHost 1700000000000
        [Submission.mk "k1" "Ann" "a@x.com" "hi" "hello there" 8640000000000001]).weekSubmissions
      = 0 ∧
    [Submission.mk "k1" "Ann" "a@x.com" "hi" "hello there" 8640000000000001].countP
        (inTrailingWeek 1700000000000) = 1 ∧
    updateDashboard easternHost 1699462800000
        [Submission.mk "k1" "Ann" "a@x.com" "hi" "hello there" 1699460000000,
         Submission.mk "k2" "Bob" "b@y.com" "yo" "good morning" 1698856200000] =
      { totalSubmissions := 2, todaySubmissions := 1, weekSubmissions := 2 } ∧
    [Submission.mk "k1" "Ann" "a@x.com" "hi" "hello there" 1699460000000,
     Submission.mk "k2" "Bob" "b@y.com" "yo" "good morning" 1698856200000].countP
        (inTrailingWeek 1699462800000) = 1 := by
  refine ⟨by decide, by decide, by decide, by decide⟩

/-- C2 (amended): at a valid clock value, for every list of records with integer
timestamps, the counters of `updateDashboard` satisfy today <= week <= total, where total
is the number of records, today counts the records with a valid timestamp on the local
calendar day of `now`, and week counts the records with a valid timestamp later than the
instant 7 calendar days before `now` (the local clock reading of `now`, 7 days back); in a
zone with a fixed offset that instant is `now - 7 x 24 h`. -/
theorem updateDashboard_counts (h : Host) (now : Int) (h0 : 0 ≤ now) (h1 : now ≤ maxTime)
    (W : List Submission) :
    (updateDashboard h now W).todaySubmissions ≤ (updateDashboard h now W).weekSubmissions ∧
    (updateDashboard h now W).weekSubmissions ≤ (updateDashboard h now W).totalSubmissions ∧
    (updateDashboard h now W).totalSubmissions = W.length ∧
    (updateDashboard h now W).todaySubmissions =
      W.countP (onLocalDay h.tz (localDay h.tz now)) ∧
    (updateDashboard h now W).weekSubmissions = W.countP (laterThanDaysAgo h.tz now 7) ∧
    (∀ offset : Int, h.tz = fixedZone offset →
      (updateDashboard h now W).weekSubmissions =
        W.countP (fun r => decide (validTime r.timestamp) && inTrailingWeek now r)) := by
  have hv : validTime now := ⟨by unfold maxTime; omega, h1⟩
  have ht : (updateDashboard h now W).todaySubmissions =
      W.countP (onLocalDay h.tz (localDay h.tz now)) := by
    simp only [updateDashboard, newDate_of_valid hv, List.countP_eq_length_filter]
    congr 1
    apply List.filter_congr
    intro r _
    exact toDateString_beq h.tz r.timestamp now
  have hw : (updateDashboard h now W).weekSubmissions =
      W.countP (laterThanDaysAgo h.tz now 7) := by
    simp only [updateDashboard, weekAgo_eq h now h0 h1 7 (by norm_num) (by norm_num),
      List.countP_eq_length_filter]
    congr 1
    apply List.filter_congr
    intro r _
    exact dateGt_newDate r.timestamp (daysBefore h.tz now 7)
  refine ⟨?_, ?_, rfl, ht, hw, ?_⟩
  · rw [ht, hw]
    apply List.countP_mono_left
    intro r _ hr
    simp only [onLocalDay, laterThanDaysAgo, Bool.and_eq_true, decide_eq_true_eq] at hr ⊢
    exact ⟨hr.1, sameDay_gt_weekAgo h.tz r.timestamp now hr.2⟩
  · rw [hw]
    exact List.countP_le_length _
  · intro offset hz
    rw [hw, hz]
    apply List.countP_congr
    intro r _
    simp only [laterThanDaysAgo, inTrailingWeek, daysBefore_fixedZone]

/-- C2 (amended) at a concrete record set in a zone with daylight saving: at noon of
2023-11-08 in `easternZone`, one record of today, one of 16:30 UTC on 2023-11-01 (later than
noon of that day in local time, which was 16:00 UTC), one of ten days ago. -/
theorem updateDashboard_counts_witness :
    (0 : Int) ≤ 1699462800000 ∧ (1699462800000 : Int) ≤ maxTime ∧
    (updateDashboard easternHost 1699462800000
        [Submission.mk "k1" "Ann" "a@x.com" "hi" "hello there" 1699460000000,
         Submission.mk "k2" "Bob" "b@y.com" "yo" "good morning" 1698856200000,
         Submission.mk "k3" "Cy" "c@z.com" "re" "long time ago" 1698598800000]).todaySubmissions
      ≤ (updateDashboard easternHost 1699462800000
        [Submission.mk "k1" "Ann" "a@x.com" "hi" "hello there" 1699460000000,
         Submission.mk "k2" "Bob" "b@y.com" "yo" "good morning" 1698856200000,
         Submission.mk "k3" "Cy" "c@z.com" "re" "long time ago" 1698598800000]).weekSubmissions ∧
    (updateDashboard easternHost 1699462800000
        [Submission.mk "k1" "Ann" "a@x.com" "hi" "hello there" 1699460000000,
         Submission.mk "k2" "Bob" "b@y.com" "yo" "good morning" 1698856200000,
         Submission.mk "k3" "Cy" "c@z.com" "re" "long time ago" 1698598800000]).weekSubmissions
      = 2 :=
  ⟨by decide, by decide,
    (updateDashboard_counts easternHost 1699462800000 (by decide) (by decide) _).1,
    by decide⟩

/-! ## The weekday histogram -/

theorem length_bumpAt (l : List Nat) (i : Nat) : (bumpAt l i).length = l.length := by
  induction l generalizing i with
  | nil => rfl
  | cons x xs ih =>
    cases i with
    | zero => rfl
    | succ i => simp [bumpAt, ih]

theorem sum_bumpAt (l : List Nat) (i : Nat) (hi : i < l.length) :
    (bumpAt l i).sum = l.sum + 1 := by
  induction l generalizing i with
  | nil => simp at hi
  | cons x xs ih =>
    cases i with
    | zero => simp [bumpAt]; omega
    | succ i =>
      have := ih i (by simpa using hi)
      simp [bumpAt, this]; omega

theorem getD_bumpAt (l : List Nat) (i k : Nat) (hi : i < l.length) :
    (bumpAt l i).getD k 0 = l.getD k 0 + (if k = i then 1 else 0) := by
  induction l generalizing i k with
  | nil => simp at hi
  | cons x xs ih =>
    cases i with
    | zero =>
      cases k with
      | zero => simp [bumpAt]
      | succ k => simp [bumpAt]
    | succ i =>
      cases k with
      | zero => simp [bumpAt]
      | succ k =>
        have := ih i k (by simpa using hi)
        simpa [bumpAt] using this

/-- The array index computed by `getWeekdaySubmissions` for a record is the Mon..Sun bucket
of its local day of the week, and `NaN` for an invalid timestamp. -/
theorem weekdayIndex_getDay (tz : Zone) (t : Int) :
    weekdayIndex (getDay tz (newDate t)) = (localWeekday tz t).map weekdayBucket := by
  by_cases ht : validTime t
  · simp [newDate_of_valid ht, getDay, weekdayIndex, localWeekday, ht, weekdayBucket, WeekDay,
      Day, LocalTime, localDay]
  · simp [newDate_of_invalid ht, getDay, weekdayIndex, localWeekday, ht]

theorem weekdayBucket_range (tz : Zone) (t d : Int) (hd : localWeekday tz t = some d) :
    0 ≤ weekdayBucket d ∧ weekdayBucket d < 7 := by
  unfold localWeekday at hd
  split_ifs at hd
  simp only [Option.some.injEq] at hd
  unfold weekdayBucket
  split_ifs <;> omega

/-- Loop invariant of `getWeekdaySubmissions`, started from any array of 7 counters. -/
theorem foldl_weekdays (tz : Zone) (W : List Submission) (acc : List Nat)
    (hacc : acc.length = 7) :
    (W.foldl (fun weekdays submission =>
        increment weekdays (weekdayIndex (getDay tz (newDate submission.timestamp)))) acc).length
      = 7 ∧
    (∀ k : Nat, (W.foldl (fun weekdays submission =>
        increment weekdays (weekdayIndex (getDay tz (newDate submission.timestamp))))
        acc).getD k 0 = acc.getD k 0 + W.countP (inWeekdayBucket tz k)) ∧
    (W.foldl (fun weekdays submission =>
        increment weekdays (weekdayIndex (getDay tz (newDate submission.timestamp)))) acc).sum
      = acc.sum + W.countP (fun r => decide (validTime r.timestamp)) := by
  induction W generalizing acc with
  | nil => simp [hacc]
  | cons r W ih =>
    simp only [List.foldl_cons]
    rw [weekdayIndex_getDay]
    cases hd : localWeekday tz r.timestamp with
    | none =>
      have hv : ¬ validTime r.timestamp := by
        intro hv
        simp [localWeekday, hv] at hd
      obtain ⟨i1, i2, i3⟩ := ih acc hacc
      have hinc : increment acc (Option.map weekdayBucket none) = acc := rfl
      rw [hinc]
      refine ⟨i1, ?_, ?_⟩
      · intro k
        rw [i2 k, List.countP_cons]
        simp [inWeekdayBucket, hd]
      · rw [i3, List.countP_cons]
        simp [hv]
    | some d =>
      have hv : validTime r.timestamp := by
        by_contra hv
        simp [localWeekday, hv] at hd
      have hb := weekdayBucket_range tz r.timestamp d hd
      have hlt : (weekdayBucket d).toNat < acc.length := by omega
      have hinc : increment acc (Option.map weekdayBucket (some d)) =
          bumpAt acc (weekdayBucket d).toNat := by
        simp only [Option.map_some', increment]
        rw [if_pos ⟨hb.1, by omega⟩]
      rw [hinc]
      obtain ⟨i1, i2, i3⟩ := ih (bumpAt acc (weekdayBucket d).toNat)
        (by rw [length_bumpAt, hacc])
      refine ⟨i1, ?_, ?_⟩
      · intro k
        rw [i2 k, getD_bumpAt acc _ k hlt, List.countP_cons]
        have : (inWeekdayBucket tz k r = true) ↔ k = (weekdayBucket d).toNat := by
          simp only [inWeekdayBucket, hd, decide_eq_true_eq]
          omega
        by_cases hk : k = (weekdayBucket d).toNat
        · rw [if_pos hk, if_pos (this.mpr hk)]
          omega
        · have hf : inWeekdayBucket tz k r = false := by
            rw [Bool.eq_false_iff]
            exact fun e => hk (this.mp e)
          rw [if_neg hk, hf]
          simp
      · rw [i3, sum_bumpAt acc _ hlt, List.countP_cons]
        simp [hv]; omega

/-- C4: `getWeekdaySubmissions` returns an array of length 7 whose bucket `k` (Mon..Sun) is
the number of records whose local day-of-week index `d` satisfies `k = 6` when `d = 0` and
`k = d - 1` otherwise. -/
theorem getWeekdaySubmissions_buckets (h : Host) (W : List Submission) :
    (getWeekdaySubmissions h W).length = 7 ∧
    ∀ k : Nat, k < 7 →
      (getWeekdaySubmissions h W).getD k 0 = W.countP (inWeekdayBucket h.tz k) := by
  obtain ⟨i1, i2, -⟩ := foldl_weekdays h.tz W (List.replicate 7 0) (by simp)
  refine ⟨i1, ?_⟩
  intro k hk
  have := i2 k
  unfold getWeekdaySubmissions
  rw [this]
  have h0 : (List.replicate 7 0).getD k 0 = 0 := by
    interval_cases k <;> rfl
  omega

/-- C4 at a concrete record set: a Sunday record lands in bucket 6 and nowhere else. -/
theorem getWeekdaySubmissions_buckets_witness :
    (6 : Nat) < 7 ∧
    (getWeekdaySubmissions utcHost
        [Submission.mk "k1" "Ann" "a@x.com" "hi" "hello there" 259200000]).getD 6 0 =
      [Submission.mk "k1" "Ann" "a@x.com" "hi" "hello there" 259200000].countP
        (inWeekdayBucket utcHost.tz 6) :=
  ⟨by decide, (getWeekdaySubmissions_buckets utcHost _).2 6 (by decide)⟩

/-- C3: for records with valid timestamps the 7 buckets of `getWeekdaySubmissions` sum to
the number of records. -/
theorem getWeekdaySubmissions_sum (h : Host) (W : List Submission)
    (hW : ∀ r ∈ W, validTime r.timestamp) :
    (getWeekdaySubmissions h W).sum = W.length := by
  obtain ⟨-, -, i3⟩ := foldl_weekdays h.tz W (List.replicate 7 0) (by simp)
  unfold getWeekdaySubmissions
  rw [i3]
  have hall : W.countP (fun r => decide (validTime r.timestamp)) = W.length := by
    rw [List.countP_eq_length]
    intro r hr
    simpa using hW r hr
  rw [hall]
  simp

/-- C3 at a concrete record set with a Sunday, a Thursday and a Monday record. -/
theorem getWeekdaySubmissions_sum_witness :
    (getWeekdaySubmissions utcHost
        [Submission.mk "k1" "Ann" "a@x.com" "hi" "hello there" 259200000,
         Submission.mk "k2" "Bob" "b@y.com" "yo" "good morning" 0,
         Submission.mk "k3" "Cy" "c@z.com" "re" "see you soon" 1699840800000]).sum =
      [Submission.mk "k1" "Ann" "a@x.com" "hi" "hello there" 259200000,
       Submission.mk "k2" "Bob" "b@y.com" "yo" "good morning" 0,
       Submission.mk "k3" "Cy" "c@z.com" "re" "see you soon" 1699840800000].length :=
  getWeekdaySubmissions_sum utcHost _ (by decide)

/-! ## The daily histogram -/

/-- The date object of iteration `i` of `getDailySubmissions` at a valid clock value. -/
theorem dailyDate_eq (h : Host) (now : Int) (h0 : 0 ≤ now) (h1 : now ≤ maxTime) (i : Int)
    (hi0 : 0 ≤ i) (hi : i ≤ 30) : dailyDate h now i = some (daysBefore h.tz now i) :=
  weekAgo_eq h now h0 h1 i hi0 hi

/-- The count pushed by iteration `i` of `getDailySubmissions`. -/
theorem dailyCount_eq (h : Host) (now : Int) (h0 : 0 ≤ now) (h1 : now ≤ maxTime) (i : Int)
    (hi0 : 0 ≤ i) (hi : i ≤ 30) (W : List Submission) :
    (W.filter (fun s => toDateString h.tz (newDate s.timestamp) ==
        toDateString h.tz (dailyDate h now i))).length =
      W.countP (onLocalDay h.tz (localDay h.tz now - i)) := by
  rw [dailyDate_eq h now h0 h1 i hi0 hi, List.countP_eq_length_filter]
  congr 1
  apply List.filter_congr
  intro r _
  rw [toDateString_beq, localDay_daysBefore]
  rfl

/-- The label pushed by iteration `i` of `getDailySubmissions`. -/
theorem dailyLabel_eq (h : Host) (now : Int) (h0 : 0 ≤ now) (h1 : now ≤ maxTime) (i : Int)
    (hi0 : 0 ≤ i) (hi : i ≤ 30) :
    toLocaleDateString h.tz (dailyDate h now i) = some (dayLabel (localDay h.tz now - i)) := by
  rw [dailyDate_eq h now h0 h1 i hi0 hi, ← localDay_daysBefore]
  rfl

/-- The date text of iteration `i` of `getDailySubmissions` determines the local day. -/
theorem dailyDateString_inj (h : Host) (now : Int) (h0 : 0 ≤ now) (h1 : now ≤ maxTime)
    (i j : Int) (hi0 : 0 ≤ i) (hi : i ≤ 30) (hj0 : 0 ≤ j) (hj : j ≤ 30)
    (he : toDateString h.tz (dailyDate h now i) = toDateString h.tz (dailyDate h now j)) :
    i = j := by
  rw [dailyDate_eq h now h0 h1 i hi0 hi, dailyDate_eq h now h0 h1 j hj0 hj,
    toDateString_eq_iff, localDay_daysBefore, localDay_daysBefore] at he
  omega

/-- Counting over two disjoint day sets adds up: a day range extended by its next day. -/
theorem countP_days_succ (tz : Zone) (lo hi : Int) (hle : lo ≤ hi + 1) (W : List Submission) :
    W.countP (inLocalDays tz lo hi) + W.countP (onLocalDay tz (hi + 1)) =
      W.countP (inLocalDays tz lo (hi + 1)) := by
  induction W with
  | nil => rfl
  | cons r W ih =>
    simp only [List.countP_cons]
    have key : (if inLocalDays tz lo hi r = true then 1 else 0) +
        (if onLocalDay tz (hi + 1) r = true then 1 else 0) =
        (if inLocalDays tz lo (hi + 1) r = true then 1 else 0) := by
      by_cases hv : validTime r.timestamp
      · simp only [inLocalDays, onLocalDay, hv, decide_True, Bool.true_and, Bool.and_eq_true,
          decide_eq_true_eq]
        split_ifs <;> omega
      · simp [inLocalDays, onLocalDay, hv]
    omega

/-- A one-day range is that day. -/
theorem inLocalDays_single (tz : Zone) (day : Int) (W : List Submission) :
    W.countP (inLocalDays tz day day) = W.countP (onLocalDay tz day) := by
  apply List.countP_congr
  intro r _
  by_cases hv : validTime r.timestamp
  · simp only [inLocalDays, onLocalDay, hv, decide_True, Bool.true_and, Bool.and_eq_true,
      decide_eq_true_eq]
    omega
  · simp [inLocalDays, onLocalDay, hv]

/-- C5: at a valid clock value `getDailySubmissions` returns 7 labels and 7 counts, oldest
day first and ending with today: the labels are
those of the local calendar days `today - 6, ..., today - 1, today` in this order (label
`i` is the one of `today - (6 - i)`), bucket `i` is the number of records on that day, the date texts of the 7
iterations are pairwise distinct, and the buckets sum to the number of records whose local
calendar day lies in the last 7 calendar days including today. -/
theorem getDailySubmissions_spec (h : Host) (now : Int) (h0 : 0 ≤ now) (h1 : now ≤ maxTime)
    (W : List Submission) :
    (getDailySubmissions h now W).1.length = 7 ∧
    (getDailySubmissions h now W).2.length = 7 ∧
    (getDailySubmissions h now W).1 =
      [6, 5, 4, 3, 2, 1, 0].map (fun k : Int => some (dayLabel (localDay h.tz now - k))) ∧
    (getDailySubmissions h now W).2 =
      [6, 5, 4, 3, 2, 1, 0].map (fun k : Int =>
        W.countP (onLocalDay h.tz (localDay h.tz now - k))) ∧
    ([6, 5, 4, 3, 2, 1, 0].map (fun i : Int => toDateString h.tz (dailyDate h now i))).Nodup ∧
    (getDailySubmissions h now W).2.sum =
      W.countP (inLocalDays h.tz (localDay h.tz now - 6) (localDay h.tz now)) := by
  have hl : (getDailySubmissions h now W).1 =
      [6, 5, 4, 3, 2, 1, 0].map (fun k : Int => some (dayLabel (localDay h.tz now - k))) := by
    simp only [getDailySubmissions, List.foldl_cons, List.foldl_nil, List.nil_append,
      List.cons_append, List.singleton_append]
    rw [dailyLabel_eq h now h0 h1 6 (by norm_num) (by norm_num),
      dailyLabel_eq h now h0 h1 5 (by norm_num) (by norm_num),
      dailyLabel_eq h now h0 h1 4 (by norm_num) (by norm_num),
      dailyLabel_eq h now h0 h1 3 (by norm_num) (by norm_num),
      dailyLabel_eq h now h0 h1 2 (by norm_num) (by norm_num),
      dailyLabel_eq h now h0 h1 1 (by norm_num) (by norm_num),
      dailyLabel_eq h now h0 h1 0 (by norm_num) (by norm_num)]
    simp
  have hc : (getDailySubmissions h now W).2 =
      [6, 5, 4, 3, 2, 1, 0].map (fun k : Int =>
        W.countP (onLocalDay h.tz (localDay h.tz now - k))) := by
    simp only [getDailySubmissions, List.foldl_cons, List.foldl_nil, List.nil_append,
      List.cons_append, List.singleton_append]
    rw [dailyCount_eq h now h0 h1 6 (by norm_num) (by norm_num),
      dailyCount_eq h now h0 h1 5 (by norm_num) (by norm_num),
      dailyCount_eq h now h0 h1 4 (by norm_num) (by norm_num),
      dailyCount_eq h now h0 h1 3 (by norm_num) (by norm_num),
      dailyCount_eq h now h0 h1 2 (by norm_num) (by norm_num),
      dailyCount_eq h now h0 h1 1 (by norm_num) (by norm_num),
      dailyCount_eq h now h0 h1 0 (by norm_num) (by norm_num)]
    simp
  refine ⟨by rw [hl]; rfl, by rw [hc]; rfl, hl, hc, ?_, ?_⟩
  · rw [List.nodup_map_iff_inj_on (by decide)]
    intro i hi j hj he
    simp only [List.mem_cons, List.mem_singleton, List.not_mem_nil, or_false] at hi hj
    exact dailyDateString_inj h now h0 h1 i j (by omega) (by omega) (by omega) (by omega) he
  · rw [hc]
    simp only [List.map_cons, List.map_nil, List.sum_cons, List.sum_nil]
    generalize localDay h.tz now = D
    have e6 := inLocalDays_single h.tz (D - 6) W
    have e5 := countP_days_succ h.tz (D - 6) (D - 6) (by omega) W
    have e4 := countP_days_succ h.tz (D - 6) (D - 6 + 1) (by omega) W
    have e3 := countP_days_succ h.tz (D - 6) (D - 6 + 1 + 1) (by omega) W
    have e2 := countP_days_succ h.tz (D - 6) (D - 6 + 1 + 1 + 1) (by omega) W
    have e1 := countP_days_succ h.tz (D - 6) (D - 6 + 1 + 1 + 1 + 1) (by omega) W
    have e0 := countP_days_succ h.tz (D - 6) (D - 6 + 1 + 1 + 1 + 1 + 1) (by omega) W
    have a5 : D - 6 + 1 = D - 5 := by omega
    have a4 : D - 5 + 1 = D - 4 := by omega
    have a3 : D - 4 + 1 = D - 3 := by omega
    have a2 : D - 3 + 1 = D - 2 := by omega
    have a1 : D - 2 + 1 = D - 1 := by omega
    have a0 : D - 1 + 1 = D := by omega
    simp only [a5, a4, a3, a2, a1, a0] at e5 e4 e3 e2 e1 e0
    have b0 : D - 0 = D := by omega
    rw [b0]
    omega

/-- C5 at a concrete clock value and record set. -/
theorem getDailySubmissions_spec_witness :
    (0 : Int) ≤ 1700000000000 ∧ (1700000000000 : Int) ≤ maxTime ∧
    (getDailySubmissions utcHost 1700000000000
        [Submission.mk "k1" "Ann" "a@x.com" "hi" "hello there" 1699999000000,
         Submission.mk "k2" "Bob" "b@y.com" "yo" "good morning" 1699740800000,
         Submission.mk "k3" "Cy" "c@z.com" "re" "long time ago" 1699136000000]).2.length = 7 :=
  ⟨by decide, by decide,
    (getDailySubmissions_spec utcHost 1700000000000 (by decide) (by decide) _).2.1⟩

/-- The daily histogram across a daylight-saving transition: at noon of 2023-11-08 in
`easternZone` the labels are Nov 2 .. Nov 8 (the clocks went back on Nov 5), and the
record of 03:30 UTC on 2023-11-05, which is 23:30 of Nov 4 in local time, is counted on
Nov 4. -/
theorem getDailySubmissions_eastern :
    getDailySubmissions easternHost 1699462800000
        [Submission.mk "k1" "Ann" "a@x.com" "hi" "hello there" 1699155000000] =
      ([some (10, 2), some (10, 3), some (10, 4), some (10, 5), some (10, 6), some (10, 7),
        some (10, 8)], [0, 0, 1, 0, 0, 0, 0]) := by
  decide

/-! ## `generateInsights`: most active day and average message length -/

/-- C9 (evaluation at the failing input): for the single record of Sunday 2023-11-12 the
histogram is `[0, 0, 0, 0, 0, 0, 1]`, its first maximal bucket is 6 (Sunday), and
`weekdayNames[6 + 1]` is `undefined`: no weekday name is reported. -/
theorem generateInsights_sunday_undefined :
    getWeekdaySubmissions utcHost
        [Submission.mk "k1" "Ann" "a@x.com" "hi" "hello there" 1699790400000] =
      [0, 0, 0, 0, 0, 0, 1] ∧
    (generateInsights utcHost 1700000000000
        [Submission.mk "k1" "Ann" "a@x.com" "hi" "hello there" 1699790400000]).mostActiveDay =
      none ∧
    (generateInsights utcHost 1700000000000
        [Submission.mk "k2" "Bob" "b@y.com" "yo" "good morning" 1699840800000]).mostActiveDay =
      some "Monday" := by
  refine ⟨by decide, by decide, by decide⟩

/-- C10 (evaluation at the failing input): for the empty record set the three counters are
zero, but the average message length is `Math.round(0 / 0)`, which is `NaN`, while the
growth rate of the same function is guarded and is `0`. -/
theorem generateInsights_empty_nan :
    updateDashboard utcHost 1700000000000 [] =
      { totalSubmissions := 0, todaySubmissions := 0, weekSubmissions := 0 } ∧
    (generateInsights utcHost 1700000000000 []).avgLength = JSNumber.nan ∧
    (generateInsights utcHost 1700000000000 []).growthRate = JSNumber.ofInt 0 ∧
    (generateInsights utcHost 1700000000000
        [Submission.mk "k1" "Ann" "a@x.com" "hi" "hello there" 1699790400000,
         Submission.mk "k2" "Bob" "b@y.com" "yo" "good morning" 1699840800000]).avgLength =
      JSNumber.ofInt 12 := by
  refine ⟨by decide, by decide, by decide, by decide⟩

/-! ## Counting maps -/

theorem mem_firstOccurrences (l : List String) (x : String) :
    x ∈ firstOccurrences l ↔ x ∈ l := by
  induction l with
  | nil => simp [firstOccurrences]
  | cons a l ih =>
    simp only [firstOccurrences, List.mem_cons, List.mem_filter, ih, decide_eq_true_eq]
    by_cases hx : x = a
    · simp [hx]
    · simp [hx]

theorem nodup_firstOccurrences (l : List String) : (firstOccurrences l).Nodup := by
  induction l with
  | nil => simp [firstOccurrences]
  | cons a l ih =>
    simp only [firstOccurrences, List.nodup_cons, List.mem_filter, decide_eq_true_eq]
    exact ⟨fun hc => hc.2 rfl, ih.filter _⟩

/-- Appending a string at the end adds it to the first occurrences only if it is new. -/
theorem firstOccurrences_concat (p : List String) (x : String) :
    firstOccurrences (p ++ [x]) =
      if x ∈ p then firstOccurrences p else firstOccurrences p ++ [x] := by
  induction p with
  | nil => simp [firstOccurrences]
  | cons a p ih =>
    have e : firstOccurrences (a :: (p ++ [x])) =
        a :: (firstOccurrences (p ++ [x])).filter (fun y => y ≠ a) := rfl
    have e' : firstOccurrences (a :: p) =
        a :: (firstOccurrences p).filter (fun y => y ≠ a) := rfl
    rw [List.cons_append, e, ih, e']
    by_cases hxp : x ∈ p
    · simp [hxp]
    · by_cases hxa : x = a
      · subst hxa
        simp [hxp, List.filter_append]
      · simp [hxp, hxa, List.filter_append]

/-- Reading a key from a map that holds one value per listed key. -/
theorem ownValue_map (l : List String) (f : String → Cell) (x : String) :
    ownValue (l.map (fun k => (k, f k))) x = if x ∈ l then some (f x) else none := by
  induction l with
  | nil => simp [ownValue]
  | cons a l ih =>
    simp only [List.map_cons, ownValue, ih, List.mem_cons]
    by_cases ha : a = x
    · simp [ha]
    · have : ¬ x = a := fun e => ha e.symm
      simp [ha, this]

/-- Overwriting a key of a map that holds one value per listed key. -/
theorem setOwn_map (l : List String) (f : String → Cell) (x : String) (v : Cell) :
    setOwn (l.map (fun k => (k, f k))) x v =
      l.map (fun k => (k, if k = x then v else f k)) := by
  simp only [setOwn, List.map_map]
  apply List.map_congr_left
  intro k _
  by_cases hk : k = x
  · simp [hk]
  · simp [hk]

/-- Loop invariant of the two counting loops of `updateAnalytics`: when no key names a
member of `Object.prototype`, the map holds the distinct keys in order of first occurrence,
each with its number of occurrences. -/
theorem foldl_tally (keys : List String) (hk : ∀ k ∈ keys, k ∉ objectPrototypeNames) :
    keys.foldl tally [] =
      (firstOccurrences keys).map (fun k => (k, Cell.number (keys.count k))) := by
  induction keys using List.reverseRecOn with
  | nil => rfl
  | append_singleton p x ih =>
    have hp : ∀ k ∈ p, k ∉ objectPrototypeNames := fun k hkp =>
      hk k (List.mem_append_left _ hkp)
    have hx : x ∉ objectPrototypeNames := hk x (by simp)
    have hx' : x ≠ "__proto__" := by
      intro e
      apply hx
      rw [e]
      decide
    rw [List.foldl_append, List.foldl_cons, List.foldl_nil, ih hp, firstOccurrences_concat]
    unfold tally
    rw [ownValue_map]
    by_cases hxp : x ∈ p
    · have hxf : x ∈ firstOccurrences p := (mem_firstOccurrences p x).mpr hxp
      simp only [hxf, hxp, if_true]
      rw [setOwn_map]
      apply List.map_congr_left
      intro k _
      by_cases hkx : k = x
      · simp [hkx]
      · simp [hkx, List.count_append]
    · have hxf : x ∉ firstOccurrences p := fun e => hxp ((mem_firstOccurrences p x).mp e)
      simp only [hxf, hxp, if_false, hx', hx]
      rw [List.map_append]
      congr 1
      · apply List.map_congr_left
        intro k hkf
        have hkx : k ≠ x := fun e => hxf (e ▸ hkf)
        simp [List.count_append, hkx]
      · simp [List.count_append, List.count_eq_zero_of_not_mem hxp]

/-- `Object.entries` of a map that holds one value per listed key lists the keys in
property order. -/
theorem objectEntries_map (l : List String) (f : String → Cell) :
    objectEntries (l.map (fun k => (k, f k))) = (keyOrder l).map (fun k => (k, f k)) := by
  unfold objectEntries keyOrder
  rw [List.map_append, List.filter_map, List.filter_map]
  congr 1
  exact (List.map_insertionSort keyLe indexLe (fun k => (k, f k)) _
    (fun a _ b _ => Iff.rfl)).symm

/-- When no key is an array index, the property order is the creation order. -/
theorem keyOrder_of_no_index (l : List String) (hl : ∀ k ∈ l, arrayIndex k = none) :
    keyOrder l = l := by
  unfold keyOrder
  have h1 : l.filter (fun k => (arrayIndex k).isSome) = [] := by
    rw [List.filter_eq_nil_iff]
    intro k hk
    simp [hl k hk]
  have h2 : l.filter (fun k => !(arrayIndex k).isSome) = l := by
    rw [List.filter_eq_self]
    intro k hk
    simp [hl k hk]
  rw [h1, h2]
  rfl

theorem perm_keyOrder (l : List String) : (keyOrder l).Perm l := by
  unfold keyOrder
  refine ((List.perm_insertionSort keyLe _).append_right _).trans ?_
  exact List.filter_append_perm _ l

/-- Occurrences of a key among the keys of the records, counted on the records. -/
theorem count_map_eq_countP (W : List Submission) (f : Submission → String) (k : String) :
    (W.map f).count k = W.countP (fun r => decide (f r = k)) := by
  induction W with
  | nil => rfl
  | cons r W ih =>
    rw [List.map_cons, List.count_cons, List.countP_cons, ih]
    by_cases h : f r = k
    · simp [h]
    · simp [h]

/-- The counting map of the subjects built by `updateAnalytics`. -/
theorem subjects_map (W : List Submission) (hW : ∀ r ∈ W, r.subject ∉ objectPrototypeNames) :
    W.foldl (fun subjects s => tally subjects s.subject) [] =
      (firstOccurrences (subjectsOf W)).map
        (fun k => (k, Cell.number ((subjectsOf W).count k))) := by
  have h := foldl_tally (subjectsOf W) (by
    intro k hk
    simp only [subjectsOf, List.mem_map] at hk
    obtain ⟨r, hr, rfl⟩ := hk
    exact hW r hr)
  rw [← h, subjectsOf, List.foldl_map]

/-- C8 (as stated) fails: for the subjects `Hello`, `2024` the first distinct subjects in
order of first occurrence are `Hello`, `2024`, yet the labels are `2024`, `Hello`, because
a key that is an array index precedes the other keys of an object; and for the subject
`constructor` the data value is a text, not the number of records. -/
theorem topSubjects_counterexample :
    (updateAnalytics
        [Submission.mk "k1" "Ann" "a@x.com" "Hello" "hello there" 1699790400000,
         Submission.mk "k2" "Bob" "b@y.com" "2024" "good morning" 1699840800000]).labels =
      ["2024", "Hello"] ∧
    (firstOccurrences (subjectsOf
        [Submission.mk "k1" "Ann" "a@x.com" "Hello" "hello there" 1699790400000,
         Submission.mk "k2" "Bob" "b@y.com" "2024" "good morning" 1699840800000])).take 5 =
      ["Hello", "2024"] ∧
    (updateAnalytics
        [Submission.mk "k3" "Cy" "c@z.com" "constructor" "see you soon" 1699840800000]).data =
      [Cell.text] := by
  refine ⟨by decide, by decide, by decide⟩

/-- C8 (amended): when no subject names a member of `Object.prototype`, the top-subjects
labels are the first 5 keys of the counting object in property order, that is the distinct
subjects that are array indices in ascending numeric order followed by the other distinct
subjects in order of first occurrence (all of them when there are fewer than 5), with no
sorting by frequency; the `i`-th data value is the number of records of the whole list
whose subject equals the `i`-th label; and when no subject is an array index the labels are
the first 5 distinct subjects in order of first occurrence. -/
theorem topSubjects_spec (W : List Submission)
    (hW : ∀ r ∈ W, r.subject ∉ objectPrototypeNames) :
    (updateAnalytics W).labels = (keyOrder (firstOccurrences (subjectsOf W))).take 5 ∧
    (updateAnalytics W).data = (updateAnalytics W).labels.map
      (fun k => Cell.number (W.countP (fun r => decide (r.subject = k)))) ∧
    ((∀ r ∈ W, arrayIndex r.subject = none) →
      (updateAnalytics W).labels = (firstOccurrences (subjectsOf W)).take 5) := by
  have hl : (updateAnalytics W).labels =
      (keyOrder (firstOccurrences (subjectsOf W))).take 5 := by
    simp only [updateAnalytics, objectKeys]
    rw [subjects_map W hW, objectEntries_map, List.map_map]
    have e : ((fun p : String × Cell => p.1) ∘
        fun k => (k, Cell.number ((subjectsOf W).count k))) = id := rfl
    rw [e, List.map_id]
  have hd : (updateAnalytics W).data = (updateAnalytics W).labels.map
      (fun k => Cell.number (W.countP (fun r => decide (r.subject = k)))) := by
    rw [hl]
    simp only [updateAnalytics, objectValues]
    rw [subjects_map W hW, objectEntries_map, List.map_map, ← List.map_take]
    apply List.map_congr_left
    intro k _
    show Cell.number ((subjectsOf W).count k) = _
    rw [subjectsOf, count_map_eq_countP]
  refine ⟨hl, hd, ?_⟩
  intro hn
  rw [hl, keyOrder_of_no_index]
  intro k hk
  rw [mem_firstOccurrences] at hk
  simp only [subjectsOf, List.mem_map] at hk
  obtain ⟨r, hr, rfl⟩ := hk
  exact hn r hr

/-- C8 (amended) at a concrete record set with the subjects `b`, `7`, `b`, `a`, `3`: the
labels are `3`, `7`, `b`, `a`. -/
theorem topSubjects_spec_witness :
    (∀ r ∈ [Submission.mk "k1" "Ann" "a@x.com" "b" "hello there" 1699790400000,
         Submission.mk "k2" "Bob" "b@y.com" "7" "good morning" 1699840800000,
         Submission.mk "k3" "Cy" "c@z.com" "b" "see you soon" 1699840800000,
         Submission.mk "k4" "Di" "d@z.com" "a" "see you later" 1699840800000,
         Submission.mk "k5" "Ed" "e@z.com" "3" "until next time" 1699840800000],
      r.subject ∉ objectPrototypeNames) ∧
    (updateAnalytics
        [Submission.mk "k1" "Ann" "a@x.com" "b" "hello there" 1699790400000,
         Submission.mk "k2" "Bob" "b@y.com" "7" "good morning" 1699840800000,
         Submission.mk "k3" "Cy" "c@z.com" "b" "see you soon" 1699840800000,
         Submission.mk "k4" "Di" "d@z.com" "a" "see you later" 1699840800000,
         Submission.mk "k5" "Ed" "e@z.com" "3" "until next time" 1699840800000]).labels =
      (keyOrder (firstOccurrences (subjectsOf
        [Submission.mk "k1" "Ann" "a@x.com" "b" "hello there" 1699790400000,
         Submission.mk "k2" "Bob" "b@y.com" "7" "good morning" 1699840800000,
         Submission.mk "k3" "Cy" "c@z.com" "b" "see you soon" 1699840800000,
         Submission.mk "k4" "Di" "d@z.com" "a" "see you later" 1699840800000,
         Submission.mk "k5" "Ed" "e@z.com" "3" "until next time" 1699840800000]))).take 5 ∧
    (keyOrder (firstOccurrences ["b", "7", "b", "a", "3"])).take 5 = ["3", "7", "b", "a"] :=
  ⟨by decide, (topSubjects_spec _ (by decide)).1, by decide⟩

/-! ## The email-domain ranking -/

/-- The counting map of the domains built by `updateAnalytics`. -/
theorem domains_map (W : List Submission)
    (hW : ∀ r ∈ W, emailDomain r.email ∉ objectPrototypeNames) :
    W.foldl (fun domains s => tally domains (emailDomain s.email)) [] =
      (firstOccurrences (domainsOf W)).map
        (fun k => (k, Cell.number ((domainsOf W).count k))) := by
  have h := foldl_tally (domainsOf W) (by
    intro k hk
    simp only [domainsOf, List.mem_map] at hk
    obtain ⟨r, hr, rfl⟩ := hk
    exact hW r hr)
  rw [← h, domainsOf, List.foldl_map]

theorem rankLe_total (doms : List String) : IsTotal String (rankLe doms) :=
  ⟨fun a b => by unfold rankLe; omega⟩

theorem rankLe_trans (doms : List String) : IsTrans String (rankLe doms) :=
  ⟨fun a b c hab hbc => by unfold rankLe at *; omega⟩

/-- Sorting the entries of a map of numeric counts by the comparator of `updateAnalytics`
sorts the keys by descending count. -/
theorem arraySort_map (doms keys : List String) :
    arraySort (keys.map (fun k => (k, Cell.number (doms.count k)))) =
      (keys.insertionSort (rankLe doms)).map (fun k => (k, Cell.number (doms.count k))) := by
  unfold arraySort
  refine (List.map_insertionSort (rankLe doms) sortLe _ keys ?_).symm
  intro a _ b _
  simp only [sortLe, compareFn, rankLe]
  omega

/-- Two distinct members of a list occur in it in one order or the other. -/
theorem pair_sublist_or (l : List String) (a b : String) (ha : a ∈ l) (hb : b ∈ l)
    (hab : a ≠ b) : List.Sublist [a, b] l ∨ List.Sublist [b, a] l := by
  induction l with
  | nil => simp at ha
  | cons x l ih =>
    rcases List.mem_cons.mp ha with rfl | ha'
    · rcases List.mem_cons.mp hb with rfl | hb'
      · exact absurd rfl hab
      · left
        exact List.Sublist.cons₂ _ (List.singleton_sublist.mpr hb')
    · rcases List.mem_cons.mp hb with rfl | hb'
      · right
        exact List.Sublist.cons₂ _ (List.singleton_sublist.mpr ha')
      · rcases ih ha' hb' with h | h
        · exact Or.inl (List.Sublist.cons _ h)
        · exact Or.inr (List.Sublist.cons _ h)

/-- In a list without duplicates two members cannot occur in both orders. -/
theorem pair_sublist_asymm (l : List String) (a b : String) (hl : l.Nodup)
    (h1 : List.Sublist [a, b] l) (h2 : List.Sublist [b, a] l) : False := by
  induction l with
  | nil => simp at h1
  | cons x l ih =>
    rw [List.nodup_cons] at hl
    cases h1 with
    | cons _ h1' =>
      cases h2 with
      | cons _ h2' => exact ih hl.2 h1' h2'
      | cons₂ _ h2' =>
        exact hl.1 (h1'.subset (by simp))
    | cons₂ _ h1' =>
      cases h2 with
      | cons _ h2' => exact hl.1 (h2'.subset (by simp))
      | cons₂ _ h2' => exact hl.1 (List.singleton_sublist.mp h2')

/-- The key `s.email.split('@')[1]` is the text after the first `@` up to the next `@`, and
the key `undefined` when the address has no `@`. -/
theorem splitChars_eq (cs : List Char) :
    splitChars '@' cs =
      cs.takeWhile (fun c => c ≠ '@') ::
        (match afterAt cs with
         | some rest => splitChars '@' rest
         | none => []) := by
  induction cs with
  | nil => rfl
  | cons c cs ih =>
    by_cases hc : c = '@'
    · subst hc
      simp [splitChars, afterAt]
    · rw [splitChars, if_neg hc, ih]
      simp [afterAt, hc]

theorem emailDomain_eq (email : String) :
    emailDomain email =
      match afterAt email.data with
      | some rest => String.mk (rest.takeWhile (fun c => c ≠ '@'))
      | none => "undefined" := by
  unfold emailDomain
  rw [splitChars_eq]
  cases afterAt email.data with
  | none => rfl
  | some rest =>
    simp only
    rw [splitChars_eq]

/-- C7 (as stated) fails: for the addresses `a@x.com`, `b@5` both domains have one record
and `x.com` occurs first, yet the ranking lists `5` before `x.com`, because a key that is
an array index precedes the other keys of an object; and for the address `a@toString` the
listed count is a text, not the number of records. -/
theorem domainRanking_counterexample :
    (updateAnalytics
        [Submission.mk "k1" "Ann" "a@x.com" "Hello" "hello there" 1699790400000,
         Submission.mk "k2" "Bob" "b@5" "Hi" "good morning" 1699840800000]).domainsList =
      [("5", Cell.number 1), ("x.com", Cell.number 1)] ∧
    firstOccurrences (domainsOf
        [Submission.mk "k1" "Ann" "a@x.com" "Hello" "hello there" 1699790400000,
         Submission.mk "k2" "Bob" "b@5" "Hi" "good morning" 1699840800000]) =
      ["x.com", "5"] ∧
    (updateAnalytics
        [Submission.mk "k3" "Cy" "a@toString" "Hey" "see you soon" 1699840800000]).domainsList =
      [("toString", Cell.text)] := by
  refine ⟨by decide, by decide, by decide⟩

/-- C7 (amended): when no domain key names a member of `Object.prototype`, the email-domain
ranking of `updateAnalytics` groups the records by the key `email.split('@')[1]` (the text
after the first `@` up to the next `@`; the key `undefined` without an `@`), has at most 5
entries with pairwise distinct domains, each entry's count is the number of records of
that domain, the counts are non-increasing along the list, every domain left out has a
count no greater than any listed one, and two listed domains with equal counts appear in
the property order of the counting object: array-index keys in ascending numeric order,
then the other keys in order of first occurrence, which is the order of first occurrence
when no domain is an array index; the records `a@x.com`, `b@y.com` yield
`[(x.com, 1), (y.com, 1)]`. -/
theorem domainRanking_spec (W : List Submission)
    (hW : ∀ r ∈ W, emailDomain r.email ∉ objectPrototypeNames) :
    (updateAnalytics W).domainsList.length ≤ 5 ∧
    ((updateAnalytics W).domainsList.map (fun p => p.1)).Nodup ∧
    (∀ p ∈ (updateAnalytics W).domainsList,
      p.1 ∈ domainsOf W ∧
      p.2 = Cell.number (W.countP (fun r => decide (emailDomain r.email = p.1)))) ∧
    (updateAnalytics W).domainsList.Pairwise
      (fun p q => (domainsOf W).count q.1 ≤ (domainsOf W).count p.1) ∧
    (∀ d ∈ domainsOf W, d ∉ (updateAnalytics W).domainsList.map (fun p => p.1) →
      ∀ p ∈ (updateAnalytics W).domainsList,
        (domainsOf W).count d ≤ (domainsOf W).count p.1) ∧
    (∀ a b : String,
      List.Sublist [a, b] ((updateAnalytics W).domainsList.map (fun p => p.1)) →
      (domainsOf W).count a = (domainsOf W).count b →
      List.Sublist [a, b] (keyOrder (firstOccurrences (domainsOf W)))) ∧
    ((∀ r ∈ W, arrayIndex (emailDomain r.email) = none) →
      keyOrder (firstOccurrences (domainsOf W)) = firstOccurrences (domainsOf W)) ∧
    (∀ email : String, emailDomain email =
      match afterAt email.data with
      | some rest => String.mk (rest.takeWhile (fun c => c ≠ '@'))
      | none => "undefined") ∧
    (updateAnalytics
        [Submission.mk "k1" "A" "a@x.com" "" "" 1699790400000,
         Submission.mk "k2" "B" "b@y.com" "" "" 1699790400000]).domainsList =
      [("x.com", Cell.number 1), ("y.com", Cell.number 1)] := by
  haveI := rankLe_total (domainsOf W)
  haveI := rankLe_trans (domainsOf W)
  have hres : (updateAnalytics W).domainsList =
      (((keyOrder (firstOccurrences (domainsOf W))).insertionSort (rankLe (domainsOf W))).take 5).map
        (fun k => (k, Cell.number ((domainsOf W).count k))) := by
    simp only [updateAnalytics]
    rw [domains_map W hW, objectEntries_map, arraySort_map, List.map_take]
  have hkeys : (updateAnalytics W).domainsList.map (fun p => p.1) =
      ((keyOrder (firstOccurrences (domainsOf W))).insertionSort (rankLe (domainsOf W))).take 5 := by
    rw [hres, List.map_map]
    have e : ((fun p : String × Cell => p.1) ∘
        fun k => (k, Cell.number ((domainsOf W).count k))) = id := rfl
    rw [e, List.map_id]
  have hperm : ((keyOrder (firstOccurrences (domainsOf W))).insertionSort
      (rankLe (domainsOf W))).Perm (firstOccurrences (domainsOf W)) :=
    (List.perm_insertionSort _ _).trans (perm_keyOrder _)
  have hnd : ((keyOrder (firstOccurrences (domainsOf W))).insertionSort
      (rankLe (domainsOf W))).Nodup :=
    hperm.nodup_iff.mpr (nodup_firstOccurrences _)
  have hsorted := List.sorted_insertionSort (rankLe (domainsOf W))
    (keyOrder (firstOccurrences (domainsOf W)))
  have hmemK : ∀ d, d ∈ (keyOrder (firstOccurrences (domainsOf W))).insertionSort
      (rankLe (domainsOf W)) ↔ d ∈ domainsOf W := fun d =>
    (hperm.mem_iff).trans (mem_firstOccurrences _ d)
  refine ⟨?_, ?_, ?_, ?_, ?_, ?_, ?_, emailDomain_eq, by decide⟩
  · rw [hres, List.length_map]
    exact List.length_take_le _ _
  · rw [hkeys]
    exact hnd.sublist (List.take_sublist _ _)
  · intro p hp
    rw [hres, List.mem_map] at hp
    obtain ⟨k, hk, rfl⟩ := hp
    refine ⟨(hmemK k).mp (List.mem_of_mem_take hk), ?_⟩
    show Cell.number ((domainsOf W).count k) = _
    rw [domainsOf, count_map_eq_countP]
  · rw [hres, List.pairwise_map]
    exact List.Pairwise.sublist (List.take_sublist _ _) hsorted
  · intro d hd hnot p hp
    rw [hkeys] at hnot
    have hdR := (hmemK d).mpr hd
    rw [← List.take_append_drop 5 ((keyOrder (firstOccurrences (domainsOf W))).insertionSort
      (rankLe (domainsOf W))), List.mem_append] at hdR
    have hdrop := hdR.resolve_left hnot
    have hp1 : p.1 ∈ ((keyOrder (firstOccurrences (domainsOf W))).insertionSort
        (rankLe (domainsOf W))).take 5 := by
      rw [← hkeys]
      exact List.mem_map_of_mem _ hp
    exact hsorted.rel_of_mem_take_of_mem_drop hp1 hdrop
  · intro a b hab hc
    rw [hkeys] at hab
    have habR := hab.trans (List.take_sublist _ _)
    have haR : a ∈ (keyOrder (firstOccurrences (domainsOf W))).insertionSort
        (rankLe (domainsOf W)) := habR.subset (by simp)
    have hbR : b ∈ (keyOrder (firstOccurrences (domainsOf W))).insertionSort
        (rankLe (domainsOf W)) := habR.subset (by simp)
    have hne : a ≠ b := by
      intro e
      subst e
      have := hnd.sublist habR
      simp at this
    have haK : a ∈ keyOrder (firstOccurrences (domainsOf W)) :=
      (List.mem_insertionSort _).mp haR
    have hbK : b ∈ keyOrder (firstOccurrences (domainsOf W)) :=
      (List.mem_insertionSort _).mp hbR
    rcases pair_sublist_or _ a b haK hbK hne with h | h
    · exact h
    · exfalso
      have hba : rankLe (domainsOf W) b a := by
        unfold rankLe
        omega
      exact pair_sublist_asymm _ a b hnd habR (List.pair_sublist_insertionSort hba h)
  · intro hn
    apply keyOrder_of_no_index
    intro k hk
    rw [mem_firstOccurrences] at hk
    simp only [domainsOf, List.mem_map] at hk
    obtain ⟨r, hr, rfl⟩ := hk
    exact hn r hr

/-- C7 (amended) at a concrete record set with the domains `x.com` (twice), `y.com`, `5`. -/
theorem domainRanking_spec_witness :
    (∀ r ∈ [Submission.mk "k1" "Ann" "a@x.com" "Hello" "hello there" 1699790400000,
         Submission.mk "k2" "Bob" "b@y.com" "Hi" "good morning" 1699840800000,
         Submission.mk "k3" "Cy" "c@5" "Hey" "see you soon" 1699840800000,
         Submission.mk "k4" "Di" "d@x.com" "Yo" "see you later" 1699840800000],
      emailDomain r.email ∉ objectPrototypeNames) ∧
    (updateAnalytics
        [Submission.mk "k1" "Ann" "a@x.com" "Hello" "hello there" 1699790400000,
         Submission.mk "k2" "Bob" "b@y.com" "Hi" "good morning" 1699840800000,
         Submission.mk "k3" "Cy" "c@5" "Hey" "see you soon" 1699840800000,
         Submission.mk "k4" "Di" "d@x.com" "Yo" "see you later" 1699840800000]).domainsList.length
      ≤ 5 ∧
    (updateAnalytics
        [Submission.mk "k1" "Ann" "a@x.com" "Hello" "hello there" 1699790400000,
         Submission.mk "k2" "Bob" "b@y.com" "Hi" "good morning" 1699840800000,
         Submission.mk "k3" "Cy" "c@5" "Hey" "see you soon" 1699840800000,
         Submission.mk "k4" "Di" "d@x.com" "Yo" "see you later" 1699840800000]).domainsList =
      [("x.com", Cell.number 2), ("5", Cell.number 1), ("y.com", Cell.number 1)] :=
  ⟨by decide, (domainRanking_spec _ (by decide)).1, by decide⟩

/-! ## Error analysis of the binary64 operations -/

theorem halvings_spec (fuel n : Nat) (hn : 0 < n) (hf : n < 2 ^ fuel) :
    2 ^ halvings fuel n ≤ n ∧ n < 2 ^ (halvings fuel n + 1) := by
  induction fuel generalizing n with
  | zero => simp at hf; omega
  | succ fuel ih =>
    unfold halvings
    by_cases h2 : n < 2
    · rw [if_pos h2]
      simp
      omega
    · rw [if_neg h2]
      have hpos : 0 < n / 2 := by omega
      have hlt : n / 2 < 2 ^ fuel := by
        rw [pow_succ] at hf
        omega
      obtain ⟨i1, i2⟩ := ih (n / 2) hpos hlt
      constructor
      · rw [pow_succ]; omega
      · rw [pow_succ]; omega

/-- The integer binary logarithm brackets its argument. -/
theorem ilog2_spec (n : Nat) (hn : 0 < n) : 2 ^ ilog2 n ≤ n ∧ n < 2 ^ (ilog2 n + 1) :=
  halvings_spec n n hn (Nat.lt_two_pow n)

/-- Rounding a quotient to the nearest integer errs by at most one half. -/
theorem roundHalfEven_err (N D : Nat) (hD : 0 < D) :
    |((roundHalfEven N D : Nat) : ℚ) - (N : ℚ) / (D : ℚ)| ≤ 1 / 2 := by
  have hDq : (0 : ℚ) < D := by exact_mod_cast hD
  have hdm : (N : ℚ) = (D : ℚ) * ((N / D : Nat) : ℚ) + ((N % D : Nat) : ℚ) := by
    exact_mod_cast (Nat.div_add_mod N D).symm
  have hr : N % D < D := Nat.mod_lt N hD
  have hrq : ((N % D : Nat) : ℚ) < D := by exact_mod_cast hr
  have hr0 : (0 : ℚ) ≤ ((N % D : Nat) : ℚ) := by positivity
  have hq : (N : ℚ) / D = ((N / D : Nat) : ℚ) + ((N % D : Nat) : ℚ) / D := by
    rw [hdm]; field_simp; ring
  rw [hq]
  unfold roundHalfEven
  simp only
  have key1 : 2 * (N % D) ≤ D → ((N % D : Nat) : ℚ) / D ≤ 1 / 2 := by
    intro h
    rw [div_le_iff₀ hDq]
    have : (2 : ℚ) * ((N % D : Nat) : ℚ) ≤ D := by exact_mod_cast h
    linarith
  have key2 : D ≤ 2 * (N % D) → 1 / 2 ≤ ((N % D : Nat) : ℚ) / D := by
    intro h
    rw [le_div_iff₀ hDq]
    have : (D : ℚ) ≤ (2 : ℚ) * ((N % D : Nat) : ℚ) := by exact_mod_cast h
    linarith
  have hle1 : ((N % D : Nat) : ℚ) / D < 1 := by
    rw [div_lt_one hDq]; exact hrq
  have hge0 : 0 ≤ ((N % D : Nat) : ℚ) / D := by positivity
  split_ifs with h1 h2 h3
  · rw [abs_le]; constructor <;> linarith [key1 (by omega)]
  · push_cast; rw [abs_le]; constructor <;> linarith [key2 (by omega)]
  · rw [abs_le]; constructor <;> linarith [key1 (by omega)]
  · push_cast; rw [abs_le]; constructor <;> linarith [key2 (by omega)]

theorem two_zpow_of_neg (e : Int) (he : e < 0) :
    (2 : ℚ) ^ e = ((2 : ℚ) ^ (-e).toNat)⁻¹ := by
  have h : e = -(((-e).toNat : Nat) : Int) := by omega
  conv_lhs => rw [h]
  rw [zpow_neg, zpow_natCast]

theorem two_zpow_of_nonneg (e : Int) (he : 0 ≤ e) : (2 : ℚ) ^ e = (2 : ℚ) ^ e.toNat := by
  have h : e = ((e.toNat : Nat) : Int) := by omega
  conv_lhs => rw [h]
  rw [zpow_natCast]

theorem scaleDen_pos (d : Nat) (e : Int) (hd : 0 < d) : 0 < scaleDen d e := by
  unfold scaleDen
  split_ifs
  · exact hd
  · positivity

/-- The scaled fraction is the fraction divided by `2 ^ e`. -/
theorem scale_value (n d : Nat) (e : Int) (hd : 0 < d) :
    ((scaleNum n e : Nat) : ℚ) / ((scaleDen d e : Nat) : ℚ) = ((n : ℚ) / (d : ℚ)) / (2 : ℚ) ^ e := by
  have hdq : (d : ℚ) ≠ 0 := by exact_mod_cast hd.ne'
  unfold scaleNum scaleDen
  by_cases he : e < 0
  · rw [if_pos he, if_pos he, two_zpow_of_neg e he]
    push_cast
    field_simp
  · rw [if_neg he, if_neg he, two_zpow_of_nonneg e (by omega)]
    push_cast
    field_simp

/-- The exponent chosen by `binade` puts the scaled fraction at or above `2 ^ 52`. -/
theorem binade_lower (n d : Nat) (hn : 0 < n) (hd : 0 < d) :
    (2 : ℚ) ^ (52 : Nat) * (2 : ℚ) ^ (binade n d) ≤ (n : ℚ) / (d : ℚ) := by
  have hdq : (0 : ℚ) < d := by exact_mod_cast hd
  obtain ⟨hn1, -⟩ := ilog2_spec n hn
  obtain ⟨-, hd2⟩ := ilog2_spec d hd
  have hn1q : (2 : ℚ) ^ (ilog2 n) ≤ n := by exact_mod_cast hn1
  have hd2q : (d : ℚ) ≤ (2 : ℚ) ^ (ilog2 d + 1) := by exact_mod_cast hd2.le
  unfold binade
  simp only
  split_ifs with hlt
  · -- e = e0 - 1
    have e1 : (2 : ℚ) ^ (52 : Nat) * (2 : ℚ) ^ ((ilog2 n : Int) - (ilog2 d : Int) - 52 - 1) =
        (2 : ℚ) ^ (ilog2 n) / (2 : ℚ) ^ (ilog2 d + 1) := by
      rw [← zpow_natCast, ← zpow_natCast, ← zpow_natCast, ← zpow_add₀ (by norm_num : (2 : ℚ) ≠ 0),
        ← zpow_sub₀ (by norm_num : (2 : ℚ) ≠ 0)]
      congr 1
      push_cast
      ring
    rw [e1]
    have hp : (0 : ℚ) < (2 : ℚ) ^ (ilog2 d + 1) := by positivity
    rw [div_le_div_iff₀ hp hdq]
    calc (2 : ℚ) ^ ilog2 n * d ≤ n * d := by
          apply mul_le_mul_of_nonneg_right hn1q hdq.le
      _ ≤ n * (2 : ℚ) ^ (ilog2 d + 1) := by
          apply mul_le_mul_of_nonneg_left hd2q (by positivity)
  · have hge : 2 ^ 52 * scaleDen d ((ilog2 n : Int) - (ilog2 d : Int) - 52) ≤
        scaleNum n ((ilog2 n : Int) - (ilog2 d : Int) - 52) := by omega
    have hgeq : (2 : ℚ) ^ (52 : Nat) * ((scaleDen d ((ilog2 n : Int) - (ilog2 d : Int) - 52) : Nat) : ℚ) ≤
        ((scaleNum n ((ilog2 n : Int) - (ilog2 d : Int) - 52) : Nat) : ℚ) := by
      exact_mod_cast hge
    have hsd : (0 : ℚ) < ((scaleDen d ((ilog2 n : Int) - (ilog2 d : Int) - 52) : Nat) : ℚ) := by
      exact_mod_cast scaleDen_pos d _ hd
    have h1 : (2 : ℚ) ^ (52 : Nat) ≤
        ((scaleNum n ((ilog2 n : Int) - (ilog2 d : Int) - 52) : Nat) : ℚ) /
          ((scaleDen d ((ilog2 n : Int) - (ilog2 d : Int) - 52) : Nat) : ℚ) := by
      rw [le_div_iff₀ hsd]
      exact hgeq
    rw [scale_value n d _ hd] at h1
    have hp : (0 : ℚ) < (2 : ℚ) ^ ((ilog2 n : Int) - (ilog2 d : Int) - 52) := by positivity
    rw [le_div_iff₀ hp] at h1
    exact h1

/-- Rounding a positive fraction to binary64 has relative error at most `2 ^ (-53)`. -/
theorem roundToDouble_err (n d : Nat) (hn : 0 < n) (hd : 0 < d) :
    |(((roundToDouble n d).1 : Nat) : ℚ) * (2 : ℚ) ^ (roundToDouble n d).2 - (n : ℚ) / (d : ℚ)| ≤
      (n : ℚ) / (d : ℚ) / (2 : ℚ) ^ (53 : Nat) := by
  have hb := binade_lower n d hn hd
  have hr := roundHalfEven_err (scaleNum n (binade n d)) (scaleDen d (binade n d))
    (scaleDen_pos d _ hd)
  rw [scale_value n d _ hd] at hr
  unfold roundToDouble
  simp only
  generalize binade n d = e at *
  generalize ((roundHalfEven (scaleNum n e) (scaleDen d e) : Nat) : ℚ) = m at *
  generalize (n : ℚ) / (d : ℚ) = v at *
  have hp : (0 : ℚ) < (2 : ℚ) ^ e := by positivity
  have h1 : m * (2 : ℚ) ^ e - v = (m - v / (2 : ℚ) ^ e) * (2 : ℚ) ^ e := by
    field_simp
  rw [h1, abs_mul, abs_of_pos hp]
  have h2 : |m - v / (2 : ℚ) ^ e| * (2 : ℚ) ^ e ≤ 1 / 2 * (2 : ℚ) ^ e :=
    mul_le_mul_of_nonneg_right hr hp.le
  have h3 : 1 / 2 * (2 : ℚ) ^ e ≤ v / (2 : ℚ) ^ (53 : Nat) := by
    rw [le_div_iff₀ (by positivity)]
    have : (2 : ℚ) ^ (53 : Nat) = 2 * (2 : ℚ) ^ (52 : Nat) := by norm_num
    rw [this]
    linarith
  linarith

/-- The quotient of two exact integers, `b` positive, is computed with relative error at
most `2 ^ (-53)`. -/
theorem numDiv_err (a b : Int) (hb : 0 < b) :
    ∃ M e, numDiv a b = JSNumber.fin M e ∧
      |(M : ℚ) * (2 : ℚ) ^ e - (a : ℚ) / (b : ℚ)| ≤ |(a : ℚ) / (b : ℚ)| / (2 : ℚ) ^ (53 : Nat) := by
  have hbq : (0 : ℚ) < (b : ℚ) := by exact_mod_cast hb
  have hb0 : b ≠ 0 := hb.ne'
  have hbn : ¬ b < 0 := by omega
  have hbabs : ((b.natAbs : Nat) : ℚ) = (b : ℚ) := by
    rw [Nat.cast_natAbs, abs_of_pos hb]
  unfold numDiv
  rw [if_neg hb0]
  by_cases ha : a = 0
  · rw [if_pos ha]
    exact ⟨0, 0, rfl, by simp [ha]⟩
  · rw [if_neg ha]
    have hr := roundToDouble_err a.natAbs b.natAbs (Int.natAbs_pos.mpr ha)
      (Int.natAbs_pos.mpr hb0)
    rw [hbabs] at hr
    rcases lt_or_gt_of_ne ha with hneg | hpos
    · have haabs : ((a.natAbs : Nat) : ℚ) = -(a : ℚ) := by
        rw [Nat.cast_natAbs, abs_of_neg hneg]
        push_cast
        rfl
      rw [haabs] at hr
      have haq : (a : ℚ) < 0 := by exact_mod_cast hneg
      refine ⟨-((roundToDouble a.natAbs b.natAbs).1 : Int), (roundToDouble a.natAbs b.natAbs).2,
        ?_, ?_⟩
      · simp [hneg, hbn]
      · have habs : |(a : ℚ) / (b : ℚ)| = -(a : ℚ) / (b : ℚ) := by
          rw [abs_of_neg (div_neg_of_neg_of_pos haq hbq)]
          ring
        rw [habs]
        push_cast
        rw [← abs_neg]
        have e : -(-(((roundToDouble a.natAbs b.natAbs).1 : Nat) : ℚ) *
            (2 : ℚ) ^ (roundToDouble a.natAbs b.natAbs).2 - (a : ℚ) / (b : ℚ)) =
            (((roundToDouble a.natAbs b.natAbs).1 : Nat) : ℚ) *
              (2 : ℚ) ^ (roundToDouble a.natAbs b.natAbs).2 - -(a : ℚ) / (b : ℚ) := by ring
        rw [e]
        exact hr
    · have haabs : ((a.natAbs : Nat) : ℚ) = (a : ℚ) := by
        rw [Nat.cast_natAbs, abs_of_pos hpos]
      rw [haabs] at hr
      have haq : (0 : ℚ) < (a : ℚ) := by exact_mod_cast hpos
      have han : ¬ a < 0 := by omega
      refine ⟨((roundToDouble a.natAbs b.natAbs).1 : Int), (roundToDouble a.natAbs b.natAbs).2,
        ?_, ?_⟩
      · simp [han, hbn]
      · rw [abs_of_pos (div_pos haq hbq)]
        push_cast
        exact hr

/-- Multiplying by `2 ^ e` through `scaleDen` and `scaleNum`. -/
theorem scale_mul_value (N : Nat) (e : Int) :
    ((scaleDen N e : Nat) : ℚ) / ((scaleNum 1 e : Nat) : ℚ) = (N : ℚ) * (2 : ℚ) ^ e := by
  unfold scaleNum scaleDen
  by_cases he : e < 0
  · rw [if_pos he, if_pos he, two_zpow_of_neg e he]
    push_cast
    field_simp
  · rw [if_neg he, if_neg he, two_zpow_of_nonneg e (by omega)]
    push_cast
    field_simp

/-- The product of a finite Number and a positive integer constant is computed with
relative error at most `2 ^ (-53)`. -/
theorem numMul_err (M : Int) (e : Int) (k : Nat) (hk : 0 < k) :
    ∃ M' e', numMul (JSNumber.fin M e) k = JSNumber.fin M' e' ∧
      |(M' : ℚ) * (2 : ℚ) ^ e' - (k : ℚ) * ((M : ℚ) * (2 : ℚ) ^ e)| ≤
        |(k : ℚ) * ((M : ℚ) * (2 : ℚ) ^ e)| / (2 : ℚ) ^ (53 : Nat) := by
  unfold numMul
  simp only
  by_cases hM : M = 0
  · rw [if_pos hM]
    exact ⟨0, 0, rfl, by simp [hM]⟩
  · rw [if_neg hM]
    have hNpos : 0 < M.natAbs * k := Nat.mul_pos (Int.natAbs_pos.mpr hM) hk
    have hnum : 0 < scaleDen (M.natAbs * k) e := by
      unfold scaleDen
      split_ifs
      · exact hNpos
      · positivity
    have hden : 0 < scaleNum 1 e := by
      unfold scaleNum
      split_ifs <;> positivity
    have hr := roundToDouble_err _ _ hnum hden
    rw [scale_mul_value] at hr
    have hp : (0 : ℚ) < (2 : ℚ) ^ e := by positivity
    have hkq : (0 : ℚ) < (k : ℚ) := by exact_mod_cast hk
    generalize roundToDouble (scaleDen (M.natAbs * k) e) (scaleNum 1 e) = r at hr ⊢
    rcases lt_or_gt_of_ne hM with hneg | hpos
    · have hMq : (M : ℚ) < 0 := by exact_mod_cast hneg
      have hcast : ((M.natAbs * k : Nat) : ℚ) = -(M : ℚ) * (k : ℚ) := by
        push_cast
        rw [Nat.cast_natAbs, abs_of_neg hneg]
        push_cast
        rfl
      rw [hcast] at hr
      refine ⟨-(r.1 : Int), r.2, by simp [hneg], ?_⟩
      have habs : |(k : ℚ) * ((M : ℚ) * (2 : ℚ) ^ e)| = -(M : ℚ) * (k : ℚ) * (2 : ℚ) ^ e := by
        rw [abs_of_neg (by nlinarith [mul_pos hkq hp])]
        ring
      rw [habs]
      push_cast
      rw [← abs_neg]
      have e1 : -(-((r.1 : Nat) : ℚ) * (2 : ℚ) ^ r.2 - (k : ℚ) * ((M : ℚ) * (2 : ℚ) ^ e)) =
          ((r.1 : Nat) : ℚ) * (2 : ℚ) ^ r.2 - -(M : ℚ) * (k : ℚ) * (2 : ℚ) ^ e := by ring
      rw [e1]
      exact hr
    · have hMq : (0 : ℚ) < (M : ℚ) := by exact_mod_cast hpos
      have hcast : ((M.natAbs * k : Nat) : ℚ) = (M : ℚ) * (k : ℚ) := by
        push_cast
        rw [Nat.cast_natAbs, abs_of_pos hpos]
      rw [hcast] at hr
      have hMn : ¬ M < 0 := by omega
      refine ⟨(r.1 : Int), r.2, by simp [hMn], ?_⟩
      have habs : |(k : ℚ) * ((M : ℚ) * (2 : ℚ) ^ e)| = (M : ℚ) * (k : ℚ) * (2 : ℚ) ^ e := by
        rw [abs_of_pos (by positivity)]
        ring
      rw [habs]
      push_cast
      have e1 : ((r.1 : Nat) : ℚ) * (2 : ℚ) ^ r.2 - (k : ℚ) * ((M : ℚ) * (2 : ℚ) ^ e) =
          ((r.1 : Nat) : ℚ) * (2 : ℚ) ^ r.2 - (M : ℚ) * (k : ℚ) * (2 : ℚ) ^ e := by ring
      rw [e1]
      exact hr

/-- `Math.round` of a finite Number is `floor (x + 1/2)`. -/
theorem mathRound_val (M e : Int) :
    mathRound (JSNumber.fin M e) = JSNumber.ofInt ⌊(M : ℚ) * (2 : ℚ) ^ e + 1 / 2⌋ := by
  unfold mathRound JSNumber.ofInt
  simp only
  by_cases he : e < 0
  · rw [if_pos he, two_zpow_of_neg e he]
    congr 1
    have h1 : (M : ℚ) * ((2 : ℚ) ^ (-e).toNat)⁻¹ + 1 / 2 =
        (((2 * M + 2 ^ (-e).toNat : Int)) : ℚ) / (((2 ^ ((-e).toNat + 1) : Nat)) : ℚ) := by
      push_cast
      field_simp
      ring
    rw [h1, Rat.floor_intCast_div_natCast]
    push_cast
    rfl
  · rw [if_neg he, two_zpow_of_nonneg e (by omega)]
    congr 1
    have h1 : (M : ℚ) * (2 : ℚ) ^ e.toNat + 1 / 2 = ((M * 2 ^ e.toNat : Int) : ℚ) + 1 / 2 := by
      push_cast
      rfl
    rw [h1, Int.floor_int_add]
    norm_num

/-- Rounding is stable under a perturbation smaller than the grid of the exact value: if
`Y` is within `1 / (2 b)` of the fraction `N / b`, then `floor (Y + 1/2)` is
`floor (N / b + 1/2)`, except that it may be one less when `N / b + 1/2` is an integer. -/
theorem round_stable (N : Int) (b : Nat) (hb : 0 < b) (Y : ℚ)
    (hY : |Y - (N : ℚ) / (b : ℚ)| < 1 / (2 * (b : ℚ))) :
    (⌊Y + 1 / 2⌋ = ⌊(N : ℚ) / (b : ℚ) + 1 / 2⌋ ∨
      ⌊Y + 1 / 2⌋ = ⌊(N : ℚ) / (b : ℚ) + 1 / 2⌋ - 1) ∧
    (((⌊(N : ℚ) / (b : ℚ) + 1 / 2⌋ : Int) : ℚ) ≠ (N : ℚ) / (b : ℚ) + 1 / 2 →
      ⌊Y + 1 / 2⌋ = ⌊(N : ℚ) / (b : ℚ) + 1 / 2⌋) := by
  have hbq : (0 : ℚ) < (b : ℚ) := by exact_mod_cast hb
  have hb1 : (1 : ℚ) ≤ (b : ℚ) := by exact_mod_cast hb
  obtain ⟨hlo, hhi⟩ := abs_lt.mp hY
  generalize hr : ⌊(N : ℚ) / (b : ℚ) + 1 / 2⌋ = r
  have hr1 : (r : ℚ) ≤ (N : ℚ) / (b : ℚ) + 1 / 2 := by
    rw [← hr]; exact Int.floor_le _
  have hr2 : (N : ℚ) / (b : ℚ) + 1 / 2 < (r : ℚ) + 1 := by
    rw [← hr]; exact Int.lt_floor_add_one _
  -- the grid: 2 b (N / b + 1/2) is the integer 2 N + b
  have hz : (N : ℚ) / (b : ℚ) + 1 / 2 = ((2 * N + b : Int) : ℚ) / (2 * (b : ℚ)) := by
    push_cast
    field_simp
    ring
  have h2b : (0 : ℚ) < 2 * (b : ℚ) := by linarith
  have hinv : 1 / (2 * (b : ℚ)) ≤ 1 / 2 := by
    rw [div_le_div_iff₀ h2b (by norm_num)]
    linarith
  -- integer remainder
  have hρ1 : (0 : Int) ≤ 2 * N + b - 2 * b * r := by
    have : ((0 : Int) : ℚ) ≤ ((2 * N + b - 2 * b * r : Int) : ℚ) := by
      rw [hz, le_div_iff₀ h2b] at hr1
      push_cast at hr1 ⊢
      linarith
    exact_mod_cast this
  have hρ2 : 2 * N + b - 2 * b * r < 2 * b := by
    have : ((2 * N + b - 2 * b * r : Int) : ℚ) < ((2 * b : Int) : ℚ) := by
      rw [hz, div_lt_iff₀ h2b] at hr2
      push_cast at hr2 ⊢
      linarith
    exact_mod_cast this
  have hup : (N : ℚ) / (b : ℚ) + 1 / 2 ≤ (r : ℚ) + 1 - 1 / (2 * (b : ℚ)) := by
    have h1 : 2 * N + b - 2 * b * r ≤ 2 * b - 1 := by omega
    have h2 : ((2 * N + b - 2 * b * r : Int) : ℚ) ≤ ((2 * b - 1 : Int) : ℚ) := by
      exact_mod_cast h1
    rw [hz, div_le_iff₀ h2b]
    push_cast at h2 ⊢
    have : ((r : ℚ) + 1 - 1 / (2 * (b : ℚ))) * (2 * (b : ℚ)) = 2 * b * r + 2 * b - 1 := by
      field_simp
      ring
    rw [this]
    linarith
  have hfl_le : ⌊Y + 1 / 2⌋ ≤ r := by
    have : Y + 1 / 2 < (r : ℚ) + 1 := by linarith
    have := Int.floor_lt.mpr (show Y + 1 / 2 < ((r + 1 : Int) : ℚ) by push_cast; exact this)
    omega
  have hfl_ge : r - 1 ≤ ⌊Y + 1 / 2⌋ := by
    apply Int.le_floor.mpr
    push_cast
    linarith
  constructor
  · omega
  · intro hne
    have hne0 : 2 * N + b - 2 * b * r ≠ 0 := by
      intro h0
      apply hne
      rw [hz, eq_div_iff h2b.ne']
      have : ((2 * N + b - 2 * b * r : Int) : ℚ) = 0 := by exact_mod_cast h0
      push_cast at this ⊢
      linarith
    have hρpos : 1 ≤ 2 * N + b - 2 * b * r := by omega
    have hlow : (r : ℚ) + 1 / (2 * (b : ℚ)) ≤ (N : ℚ) / (b : ℚ) + 1 / 2 := by
      have h2 : ((1 : Int) : ℚ) ≤ ((2 * N + b - 2 * b * r : Int) : ℚ) := by
        exact_mod_cast hρpos
      rw [hz, le_div_iff₀ h2b]
      push_cast at h2 ⊢
      have : ((r : ℚ) + 1 / (2 * (b : ℚ))) * (2 * (b : ℚ)) = 2 * b * r + 1 := by
        field_simp
        ring
      rw [this]
      linarith
    have : r ≤ ⌊Y + 1 / 2⌋ := by
      apply Int.le_floor.mpr
      linarith
    omega

/-- The growth expression of `generateInsights` on exact counts below `2 ^ 32`: the value is
the exactly rounded percentage, except that it may be one less when the exact percentage
lies half-way between two integers. -/
theorem growth_value (a b : Nat) (hb : 0 < b) (ha : a < 2 ^ 32) (hb2 : b < 2 ^ 32) :
    (mathRound (numMul (numDiv ((a : Int) - (b : Int)) (b : Int)) 100) =
        JSNumber.ofInt (growthExact a b) ∨
      mathRound (numMul (numDiv ((a : Int) - (b : Int)) (b : Int)) 100) =
        JSNumber.ofInt (growthExact a b - 1)) ∧
    (((growthExact a b : Int) : ℚ) ≠ ((a : ℚ) - (b : ℚ)) / (b : ℚ) * 100 + 1 / 2 →
      mathRound (numMul (numDiv ((a : Int) - (b : Int)) (b : Int)) 100) =
        JSNumber.ofInt (growthExact a b)) := by
  have hbq : (0 : ℚ) < (b : ℚ) := by exact_mod_cast hb
  obtain ⟨M1, e1, hdiv, herr1⟩ := numDiv_err ((a : Int) - (b : Int)) (b : Int)
    (by exact_mod_cast hb)
  obtain ⟨M2, e2, hmul, herr2⟩ := numMul_err M1 e1 100 (by norm_num)
  rw [hdiv, hmul, mathRound_val]
  -- exact quotient and its bound
  have hx : ((a : ℚ) - (b : ℚ)) / (b : ℚ) * 100 = ((100 * ((a : Int) - (b : Int)) : Int) : ℚ) / (b : ℚ) := by
    push_cast
    ring
  have hq : |(((a : Int) - (b : Int) : Int) : ℚ) / ((b : Int) : ℚ)| ≤ (2 : ℚ) ^ (32 : Nat) / (b : ℚ) := by
    rw [abs_div, Int.cast_natCast, abs_of_pos hbq]
    apply div_le_div_of_nonneg_right _ hbq.le
    have h1 : |((a : Int) - (b : Int))| ≤ 2 ^ 32 := by
      rw [abs_le]
      constructor <;> omega
    have : ((|((a : Int) - (b : Int))| : Int) : ℚ) ≤ ((2 ^ 32 : Int) : ℚ) := by exact_mod_cast h1
    push_cast at this ⊢
    exact this
  generalize hy1 : (M1 : ℚ) * (2 : ℚ) ^ e1 = y1 at herr1 herr2
  generalize hy2 : (M2 : ℚ) * (2 : ℚ) ^ e2 = y2 at herr2 ⊢
  generalize hqq : (((a : Int) - (b : Int) : Int) : ℚ) / ((b : Int) : ℚ) = q at herr1 hq
  have hxq : ((100 * ((a : Int) - (b : Int)) : Int) : ℚ) / (b : ℚ) = 100 * q := by
    rw [← hqq]
    push_cast
    ring
  -- accumulate the two rounding errors
  have habsq : 0 ≤ |q| := abs_nonneg q
  have hy1abs : |y1| ≤ |q| + |q| / (2 : ℚ) ^ (53 : Nat) := by
    have := abs_sub_abs_le_abs_sub y1 q
    linarith
  have h100 : |((100 : Nat) : ℚ) * y1| = 100 * |y1| := by
    rw [abs_mul]
    norm_num
  rw [h100] at herr2
  have htot : |y2 - 100 * q| ≤ 100 * (|q| + |q| / (2 : ℚ) ^ (53 : Nat)) / (2 : ℚ) ^ (53 : Nat) +
      100 * (|q| / (2 : ℚ) ^ (53 : Nat)) := by
    have e : y2 - 100 * q = (y2 - ((100 : Nat) : ℚ) * y1) + 100 * (y1 - q) := by
      push_cast
      ring
    rw [e]
    refine (abs_add _ _).trans ?_
    have h2 : |100 * (y1 - q)| = 100 * |y1 - q| := by
      rw [abs_mul]
      norm_num
    rw [h2]
    have h3 : 100 * |y1| / (2 : ℚ) ^ (53 : Nat) ≤
        100 * (|q| + |q| / (2 : ℚ) ^ (53 : Nat)) / (2 : ℚ) ^ (53 : Nat) := by
      apply div_le_div_of_nonneg_right _ (by positivity)
      linarith
    linarith
  have hsmall : |y2 - 100 * q| < 1 / (2 * (b : ℚ)) := by
    refine lt_of_le_of_lt htot ?_
    have hqb : |q| * (b : ℚ) ≤ (2 : ℚ) ^ (32 : Nat) := by
      rw [le_div_iff₀ hbq] at hq
      exact hq
    rw [lt_div_iff₀ (by positivity)]
    have : (100 * (|q| + |q| / (2 : ℚ) ^ (53 : Nat)) / (2 : ℚ) ^ (53 : Nat) +
        100 * (|q| / (2 : ℚ) ^ (53 : Nat))) * (2 * (b : ℚ)) =
        (|q| * (b : ℚ)) * (200 * (1 + 1 / (2 : ℚ) ^ (53 : Nat)) / (2 : ℚ) ^ (53 : Nat) +
          200 / (2 : ℚ) ^ (53 : Nat)) := by
      field_simp
      ring
    rw [this]
    have hc : (0 : ℚ) ≤ 200 * (1 + 1 / (2 : ℚ) ^ (53 : Nat)) / (2 : ℚ) ^ (53 : Nat) +
          200 / (2 : ℚ) ^ (53 : Nat) := by positivity
    calc (|q| * (b : ℚ)) * (200 * (1 + 1 / (2 : ℚ) ^ (53 : Nat)) / (2 : ℚ) ^ (53 : Nat) +
          200 / (2 : ℚ) ^ (53 : Nat))
        ≤ (2 : ℚ) ^ (32 : Nat) * (200 * (1 + 1 / (2 : ℚ) ^ (53 : Nat)) / (2 : ℚ) ^ (53 : Nat) +
          200 / (2 : ℚ) ^ (53 : Nat)) := mul_le_mul_of_nonneg_right hqb hc
      _ < 1 := by norm_num
  rw [← hxq] at hsmall
  have hst := round_stable (100 * ((a : Int) - (b : Int))) b hb y2 hsmall
  unfold growthExact
  rw [hx]
  obtain ⟨h1, h2⟩ := hst
  refine ⟨?_, fun hne => congrArg JSNumber.ofInt (h2 hne)⟩
  rcases h1 with h | h
  · exact Or.inl (congrArg JSNumber.ofInt h)
  · exact Or.inr (congrArg JSNumber.ofInt h)

/-- The integer rounding of the model is rounding to nearest, ties to even. -/
theorem roundHalfEven_eq (N D : Nat) (hD : 0 < D) :
    ((roundHalfEven N D : Nat) : Int) = roundTiesToEven ((N : ℚ) / (D : ℚ)) := by
  have hDq : (0 : ℚ) < D := by exact_mod_cast hD
  have hfl : ⌊(N : ℚ) / (D : ℚ)⌋ = ((N / D : Nat) : Int) := by
    have := Rat.floor_intCast_div_natCast (N : Int) D
    simpa using this
  have hdm : (N : ℚ) = (D : ℚ) * ((N / D : Nat) : ℚ) + ((N % D : Nat) : ℚ) := by
    exact_mod_cast (Nat.div_add_mod N D).symm
  have hfrac : (N : ℚ) / (D : ℚ) - ((((N / D : Nat) : Int)) : ℚ) = ((N % D : Nat) : ℚ) / D := by
    rw [Int.cast_natCast]
    have hq : (N : ℚ) / D = ((N / D : Nat) : ℚ) + ((N % D : Nat) : ℚ) / D := by
      rw [hdm]; field_simp; ring
    rw [hq]
    ring
  have c1 : ((N % D : Nat) : ℚ) / D < 1 / 2 ↔ 2 * (N % D) < D := by
    rw [div_lt_iff₀ hDq]
    constructor
    · intro h
      have : (2 : ℚ) * ((N % D : Nat) : ℚ) < D := by linarith
      exact_mod_cast this
    · intro h
      have : (2 : ℚ) * ((N % D : Nat) : ℚ) < D := by exact_mod_cast h
      linarith
  have c2 : 1 / 2 < ((N % D : Nat) : ℚ) / D ↔ D < 2 * (N % D) := by
    rw [lt_div_iff₀ hDq]
    constructor
    · intro h
      have : (D : ℚ) < (2 : ℚ) * ((N % D : Nat) : ℚ) := by linarith
      exact_mod_cast this
    · intro h
      have : (D : ℚ) < (2 : ℚ) * ((N % D : Nat) : ℚ) := by exact_mod_cast h
      linarith
  unfold roundTiesToEven roundHalfEven
  rw [hfl, hfrac]
  simp only [c1, c2]
  have c3 : ((N / D : Nat) : Int) % 2 = 0 ↔ (N / D) % 2 = 0 := by omega
  simp only [c3]
  split_ifs <;> simp

/-- The exponent chosen by `binade` puts the scaled fraction below `2 ^ 53`. -/
theorem binade_upper (n d : Nat) (hn : 0 < n) (hd : 0 < d) :
    (n : ℚ) / (d : ℚ) < (2 : ℚ) ^ (53 : Nat) * (2 : ℚ) ^ (binade n d) := by
  have hdq : (0 : ℚ) < d := by exact_mod_cast hd
  obtain ⟨-, hn2⟩ := ilog2_spec n hn
  obtain ⟨hd1, -⟩ := ilog2_spec d hd
  have hn2q : (n : ℚ) < (2 : ℚ) ^ (ilog2 n + 1) := by exact_mod_cast hn2
  have hd1q : (2 : ℚ) ^ (ilog2 d) ≤ (d : ℚ) := by exact_mod_cast hd1
  unfold binade
  simp only
  split_ifs with hlt
  · have hltq : ((scaleNum n ((ilog2 n : Int) - (ilog2 d : Int) - 52) : Nat) : ℚ) <
        (2 : ℚ) ^ (52 : Nat) * ((scaleDen d ((ilog2 n : Int) - (ilog2 d : Int) - 52) : Nat) : ℚ) := by
      exact_mod_cast hlt
    have hsd : (0 : ℚ) < ((scaleDen d ((ilog2 n : Int) - (ilog2 d : Int) - 52) : Nat) : ℚ) := by
      exact_mod_cast scaleDen_pos d _ hd
    have h1 : ((scaleNum n ((ilog2 n : Int) - (ilog2 d : Int) - 52) : Nat) : ℚ) /
          ((scaleDen d ((ilog2 n : Int) - (ilog2 d : Int) - 52) : Nat) : ℚ) < (2 : ℚ) ^ (52 : Nat) := by
      rw [div_lt_iff₀ hsd]
      exact hltq
    rw [scale_value n d _ hd] at h1
    have hp : (0 : ℚ) < (2 : ℚ) ^ ((ilog2 n : Int) - (ilog2 d : Int) - 52) := by positivity
    rw [div_lt_iff₀ hp] at h1
    have e1 : (2 : ℚ) ^ (53 : Nat) * (2 : ℚ) ^ ((ilog2 n : Int) - (ilog2 d : Int) - 52 - 1) =
        (2 : ℚ) ^ (52 : Nat) * (2 : ℚ) ^ ((ilog2 n : Int) - (ilog2 d : Int) - 52) := by
      rw [← zpow_natCast, ← zpow_natCast, ← zpow_add₀ (by norm_num : (2 : ℚ) ≠ 0),
        ← zpow_add₀ (by norm_num : (2 : ℚ) ≠ 0)]
      congr 1
      push_cast
      ring
    rw [e1]
    exact h1
  · have e1 : (2 : ℚ) ^ (53 : Nat) * (2 : ℚ) ^ ((ilog2 n : Int) - (ilog2 d : Int) - 52) =
        (2 : ℚ) ^ (ilog2 n + 1) / (2 : ℚ) ^ (ilog2 d) := by
      rw [← zpow_natCast, ← zpow_natCast, ← zpow_natCast, ← zpow_add₀ (by norm_num : (2 : ℚ) ≠ 0),
        ← zpow_sub₀ (by norm_num : (2 : ℚ) ≠ 0)]
      congr 1
      push_cast
      ring
    rw [e1]
    have hp : (0 : ℚ) < (2 : ℚ) ^ (ilog2 d) := by positivity
    rw [div_lt_div_iff₀ hdq hp]
    calc (n : ℚ) * (2 : ℚ) ^ ilog2 d ≤ n * d := by
          apply mul_le_mul_of_nonneg_left hd1q (by positivity)
      _ < (2 : ℚ) ^ (ilog2 n + 1) * d := by
          apply mul_lt_mul_of_pos_right hn2q hdq

/-- The exponent of the binade of a positive rational is unique. -/
theorem binade_unique (v : ℚ) (e e' : Int)
    (h1 : (2 : ℚ) ^ (52 : Nat) * (2 : ℚ) ^ e ≤ v) (h2 : v < (2 : ℚ) ^ (53 : Nat) * (2 : ℚ) ^ e)
    (h1' : (2 : ℚ) ^ (52 : Nat) * (2 : ℚ) ^ e' ≤ v)
    (h2' : v < (2 : ℚ) ^ (53 : Nat) * (2 : ℚ) ^ e') : e = e' := by
  have key : ∀ a b : Int, (2 : ℚ) ^ (52 : Nat) * (2 : ℚ) ^ a < (2 : ℚ) ^ (53 : Nat) * (2 : ℚ) ^ b →
      a ≤ b := by
    intro a b h
    rw [← zpow_natCast, ← zpow_natCast, ← zpow_add₀ (by norm_num : (2 : ℚ) ≠ 0),
      ← zpow_add₀ (by norm_num : (2 : ℚ) ≠ 0)] at h
    have := (zpow_lt_zpow_iff_right₀ (by norm_num : (1 : ℚ) < 2)).mp h
    push_cast at this
    omega
  have a1 := key e e' (lt_of_le_of_lt h1 h2')
  have a2 := key e' e (lt_of_le_of_lt h1' h2)
  omega

/-- A rational has one binary64 value. -/
theorem IsBinary64Of_unique (q y y' : ℚ) (h : IsBinary64Of q y) (h' : IsBinary64Of q y') :
    y = y' := by
  rcases h with ⟨hq, hy⟩ | ⟨e, h1, h2, hy⟩
  · rcases h' with ⟨_, hy'⟩ | ⟨e', h1', _, _⟩
    · rw [hy, hy']
    · exfalso
      rw [hq, abs_zero] at h1'
      have : (0 : ℚ) < (2 : ℚ) ^ (52 : Nat) * (2 : ℚ) ^ e' := by positivity
      linarith
  · rcases h' with ⟨hq, _⟩ | ⟨e', h1', h2', hy'⟩
    · exfalso
      rw [hq, abs_zero] at h1
      have : (0 : ℚ) < (2 : ℚ) ^ (52 : Nat) * (2 : ℚ) ^ e := by positivity
      linarith
    · have he := binade_unique |q| e e' h1 h2 h1' h2'
      subst he
      rw [hy, hy']

/-- `roundToDouble` computes the binary64 value of a positive fraction. -/
theorem roundToDouble_binary64 (n d : Nat) (hn : 0 < n) (hd : 0 < d) :
    IsBinary64Of ((n : ℚ) / (d : ℚ))
      (((roundToDouble n d).1 : Nat) * (2 : ℚ) ^ (roundToDouble n d).2) := by
  have hv : (0 : ℚ) < (n : ℚ) / (d : ℚ) := by
    have : (0 : ℚ) < n := by exact_mod_cast hn
    have : (0 : ℚ) < d := by exact_mod_cast hd
    positivity
  right
  refine ⟨binade n d, ?_, ?_, ?_⟩
  · rw [abs_of_pos hv]
    exact binade_lower n d hn hd
  · rw [abs_of_pos hv]
    exact binade_upper n d hn hd
  · rw [abs_of_pos hv, if_neg (not_lt.mpr hv.le), one_mul]
    unfold roundToDouble
    simp only
    have := roundHalfEven_eq (scaleNum n (binade n d)) (scaleDen d (binade n d))
      (scaleDen_pos d _ hd)
    rw [scale_value n d _ hd] at this
    rw [← this]
    push_cast
    rfl

/-- Rounding to binary64 commutes with negation. -/
theorem IsBinary64Of_neg (q y : ℚ) (h : IsBinary64Of q y) : IsBinary64Of (-q) (-y) := by
  rcases h with ⟨hq, hy⟩ | ⟨e, h1, h2, hy⟩
  · left
    simp [hq, hy]
  · right
    have hq0 : q ≠ 0 := by
      intro hq
      rw [hq, abs_zero] at h1
      have : (0 : ℚ) < (2 : ℚ) ^ (52 : Nat) * (2 : ℚ) ^ e := by positivity
      linarith
    refine ⟨e, by rwa [abs_neg], by rwa [abs_neg], ?_⟩
    rw [abs_neg, hy]
    rcases lt_or_gt_of_ne hq0 with hneg | hpos
    · have : ¬ (-q < 0) := by linarith
      rw [if_pos hneg, if_neg this]
      ring
    · have h1' : -q < 0 := by linarith
      have : ¬ (q < 0) := by linarith
      rw [if_neg this, if_pos h1']
      ring

/-- The quotient of two exact integers, `b` positive, is the binary64 value of the exact
quotient. -/
theorem numDiv_binary64 (a b : Int) (hb : 0 < b) :
    ∃ M e, numDiv a b = JSNumber.fin M e ∧
      IsBinary64Of ((a : ℚ) / (b : ℚ)) ((M : ℚ) * (2 : ℚ) ^ e) := by
  have hbq : (0 : ℚ) < (b : ℚ) := by exact_mod_cast hb
  have hb0 : b ≠ 0 := hb.ne'
  have hbn : ¬ b < 0 := by omega
  have hbabs : ((b.natAbs : Nat) : ℚ) = (b : ℚ) := by
    rw [Nat.cast_natAbs, abs_of_pos hb]
  unfold numDiv
  rw [if_neg hb0]
  by_cases ha : a = 0
  · rw [if_pos ha]
    exact ⟨0, 0, rfl, Or.inl ⟨by simp [ha], by simp⟩⟩
  · rw [if_neg ha]
    have hr := roundToDouble_binary64 a.natAbs b.natAbs (Int.natAbs_pos.mpr ha)
      (Int.natAbs_pos.mpr hb0)
    rw [hbabs] at hr
    rcases lt_or_gt_of_ne ha with hneg | hpos
    · have haabs : ((a.natAbs : Nat) : ℚ) = -(a : ℚ) := by
        rw [Nat.cast_natAbs, abs_of_neg hneg]
        push_cast
        rfl
      rw [haabs] at hr
      refine ⟨-((roundToDouble a.natAbs b.natAbs).1 : Int), (roundToDouble a.natAbs b.natAbs).2,
        ?_, ?_⟩
      · simp [hneg, hbn]
      · have := IsBinary64Of_neg _ _ hr
        have e1 : -(-(a : ℚ) / (b : ℚ)) = (a : ℚ) / (b : ℚ) := by ring
        rw [e1] at this
        push_cast
        have e2 : -(((roundToDouble a.natAbs b.natAbs).1 : Nat) : ℚ) *
            (2 : ℚ) ^ (roundToDouble a.natAbs b.natAbs).2 =
            -((((roundToDouble a.natAbs b.natAbs).1 : Nat) : ℚ) *
              (2 : ℚ) ^ (roundToDouble a.natAbs b.natAbs).2) := by ring
        rw [e2]
        exact this
    · have haabs : ((a.natAbs : Nat) : ℚ) = (a : ℚ) := by
        rw [Nat.cast_natAbs, abs_of_pos hpos]
      rw [haabs] at hr
      have han : ¬ a < 0 := by omega
      refine ⟨((roundToDouble a.natAbs b.natAbs).1 : Int), (roundToDouble a.natAbs b.natAbs).2,
        ?_, ?_⟩
      · simp [han, hbn]
      · push_cast
        exact hr

/-- The product of a finite Number and a positive integer constant is the binary64 value
of the exact product. -/
theorem numMul_binary64 (M : Int) (e : Int) (k : Nat) (hk : 0 < k) :
    ∃ M' e', numMul (JSNumber.fin M e) k = JSNumber.fin M' e' ∧
      IsBinary64Of ((M : ℚ) * (2 : ℚ) ^ e * (k : ℚ)) ((M' : ℚ) * (2 : ℚ) ^ e') := by
  unfold numMul
  simp only
  by_cases hM : M = 0
  · rw [if_pos hM]
    exact ⟨0, 0, rfl, Or.inl ⟨by simp [hM], by simp⟩⟩
  · rw [if_neg hM]
    have hNpos : 0 < M.natAbs * k := Nat.mul_pos (Int.natAbs_pos.mpr hM) hk
    have hnum : 0 < scaleDen (M.natAbs * k) e := by
      unfold scaleDen
      split_ifs
      · exact hNpos
      · positivity
    have hden : 0 < scaleNum 1 e := by
      unfold scaleNum
      split_ifs <;> positivity
    have hr := roundToDouble_binary64 _ _ hnum hden
    rw [scale_mul_value] at hr
    generalize roundToDouble (scaleDen (M.natAbs * k) e) (scaleNum 1 e) = r at hr ⊢
    rcases lt_or_gt_of_ne hM with hneg | hpos
    · have hcast : ((M.natAbs * k : Nat) : ℚ) = -(M : ℚ) * (k : ℚ) := by
        push_cast
        rw [Nat.cast_natAbs, abs_of_neg hneg]
        push_cast
        rfl
      rw [hcast] at hr
      refine ⟨-(r.1 : Int), r.2, by simp [hneg], ?_⟩
      have := IsBinary64Of_neg _ _ hr
      have e1 : -(-(M : ℚ) * (k : ℚ) * (2 : ℚ) ^ e) = (M : ℚ) * (2 : ℚ) ^ e * (k : ℚ) := by ring
      rw [e1] at this
      push_cast
      have e2 : -((r.1 : Nat) : ℚ) * (2 : ℚ) ^ r.2 = -(((r.1 : Nat) : ℚ) * (2 : ℚ) ^ r.2) := by ring
      rw [e2]
      exact this
    · have hcast : ((M.natAbs * k : Nat) : ℚ) = (M : ℚ) * (k : ℚ) := by
        push_cast
        rw [Nat.cast_natAbs, abs_of_pos hpos]
      rw [hcast] at hr
      have hMn : ¬ M < 0 := by omega
      refine ⟨(r.1 : Int), r.2, by simp [hMn], ?_⟩
      have e1 : (M : ℚ) * (k : ℚ) * (2 : ℚ) ^ e = (M : ℚ) * (2 : ℚ) ^ e * (k : ℚ) := by ring
      rw [e1] at hr
      push_cast
      exact hr

/-- The growth expression of `generateInsights` is `Math.round` of the binary64 value of
the product by 100 of the binary64 value of the quotient. -/
theorem growth_binary64 (a b : Nat) (hb : 0 < b) (y1 y2 : ℚ)
    (h1 : IsBinary64Of (((a : ℚ) - (b : ℚ)) / (b : ℚ)) y1) (h2 : IsBinary64Of (y1 * 100) y2) :
    mathRound (numMul (numDiv ((a : Int) - (b : Int)) (b : Int)) 100) =
      JSNumber.ofInt ⌊y2 + 1 / 2⌋ := by
  obtain ⟨M1, e1, hdiv, hb1⟩ := numDiv_binary64 ((a : Int) - (b : Int)) (b : Int)
    (by exact_mod_cast hb)
  obtain ⟨M2, e2, hmul, hb2⟩ := numMul_binary64 M1 e1 100 (by norm_num)
  have c1 : ((((a : Int) - (b : Int) : Int)) : ℚ) / (((b : Int)) : ℚ) =
      ((a : ℚ) - (b : ℚ)) / (b : ℚ) := by
    push_cast
    rfl
  rw [c1] at hb1
  have e1' := IsBinary64Of_unique _ _ _ h1 hb1
  have c2 : (M1 : ℚ) * (2 : ℚ) ^ e1 * ((100 : Nat) : ℚ) = y1 * 100 := by
    rw [e1']
    push_cast
    rfl
  rw [c2] at hb2
  have e2' := IsBinary64Of_unique _ _ _ h2 hb2
  rw [hdiv, hmul, mathRound_val, e2']

/-- The binary64 values of the quotient and of the product of `generateInsights` exist. -/
theorem growth_binary64_exists (a b : Nat) (hb : 0 < b) :
    ∃ y1 y2 : ℚ, IsBinary64Of (((a : ℚ) - (b : ℚ)) / (b : ℚ)) y1 ∧
      IsBinary64Of (y1 * 100) y2 := by
  obtain ⟨M1, e1, -, hb1⟩ := numDiv_binary64 ((a : Int) - (b : Int)) (b : Int)
    (by exact_mod_cast hb)
  obtain ⟨M2, e2, -, hb2⟩ := numMul_binary64 M1 e1 100 (by norm_num)
  refine ⟨(M1 : ℚ) * (2 : ℚ) ^ e1, (M2 : ℚ) * (2 : ℚ) ^ e2, ?_, ?_⟩
  · have c1 : ((((a : Int) - (b : Int) : Int)) : ℚ) / (((b : Int)) : ℚ) =
        ((a : ℚ) - (b : ℚ)) / (b : ℚ) := by
      push_cast
      rfl
    rw [c1] at hb1
    exact hb1
  · have c2 : (M1 : ℚ) * (2 : ℚ) ^ e1 * ((100 : Nat) : ℚ) = (M1 : ℚ) * (2 : ℚ) ^ e1 * 100 := by
      push_cast
      rfl
    rw [c2] at hb2
    exact hb2

/-! ## The growth rate of `generateInsights` -/

/-- The count `thisWeek` of `generateInsights` at a valid clock value. -/
theorem generateInsights_thisWeek (h : Host) (now : Int) (h0 : 0 ≤ now) (h1 : now ≤ maxTime)
    (W : List Submission) :
    (generateInsights h now W).thisWeek = W.countP (laterThanDaysAgo h.tz now 7) := by
  simp only [generateInsights, weekAgo_eq h now h0 h1 7 (by norm_num) (by norm_num),
    List.countP_eq_length_filter]
  congr 1
  apply List.filter_congr
  intro r _
  exact dateGt_newDate r.timestamp (daysBefore h.tz now 7)

/-- The count `lastWeek` of `generateInsights` at a valid clock value. -/
theorem generateInsights_lastWeek (h : Host) (now : Int) (h0 : 0 ≤ now) (h1 : now ≤ maxTime)
    (W : List Submission) :
    (generateInsights h now W).lastWeek = W.countP (inPreviousWeek h.tz now) := by
  simp only [generateInsights, weekAgo_eq h now h0 h1 7 (by norm_num) (by norm_num),
    weekAgo_eq h now h0 h1 14 (by norm_num) (by norm_num), List.countP_eq_length_filter]
  congr 1
  apply List.filter_congr
  intro r _
  rw [dateLe_newDate, dateGt_newDate]
  unfold inPreviousWeek
  cases decide (validTime r.timestamp) <;> simp

/-- The growth rate of `generateInsights` in terms of its two counts. -/
theorem generateInsights_growthRate (h : Host) (now : Int) (W : List Submission) :
    (generateInsights h now W).growthRate =
      if (generateInsights h now W).lastWeek ≠ 0 then
        mathRound (numMul (numDiv (((generateInsights h now W).thisWeek : Int) -
          ((generateInsights h now W).lastWeek : Int))
          ((generateInsights h now W).lastWeek : Int)) 100)
      else JSNumber.ofInt 0 := rfl


/-- C6 (as stated) fails in three ways.  Rounding: with 63 records of yesterday and 40
records of ten days ago, `thisWeek = 63` and `lastWeek = 40`; the exact percentage is 57.5,
whose rounding with halves toward positive infinity is 58, but the binary64 evaluation of
`((63 - 40) / 40) * 100` is `57.49999999999999` and `generateInsights` reports 57.
Invalid dates: a record with the integer timestamp `8640000000000001` lies in the stated
window `timestamp > now - 7 days`, which with one record of last week gives the stated
growth `round ((1 - 1) / 1 * 100) = 0`, but its date is the Invalid Date, it is not counted,
and `generateInsights` reports -100.  Calendar days: in the zone `easternZone` at noon of
2023-11-08, the date `weekAgo` is noon of 2023-11-01 in daylight-saving time, 169 hours
back, so the record of 16:30 UTC of that day is counted in `thisWeek` by the code and falls
into the stated window of the previous week (`thisWeek 1, lastWeek 1` against `0, 2`). -/
theorem growthRate_counterexample :
    (generateInsights utcHost 1700000000000
      (List.replicate 63
          (Submission.mk "k1" "Ann" "a@x.com" "hi" "hello there" 1699913600000) ++
        List.replicate 40
          (Submission.mk "k2" "Bob" "b@y.com" "yo" "good morning" 1699136000000))).thisWeek
      = 63 ∧
    (generateInsights utcHost 1700000000000
      (List.replicate 63
          (Submission.mk "k1" "Ann" "a@x.com" "hi" "hello there" 1699913600000) ++
        List.replicate 40
          (Submission.mk "k2" "Bob" "b@y.com" "yo" "good morning" 1699136000000))).lastWeek
      = 40 ∧
    (generateInsights utcHost 1700000000000
      (List.replicate 63
          (Submission.mk "k1" "Ann" "a@x.com" "hi" "hello there" 1699913600000) ++
        List.replicate 40
          (Submission.mk "k2" "Bob" "b@y.com" "yo" "good morning" 1699136000000))).growthRate
      = JSNumber.ofInt 57 ∧
    growthExact 63 40 = 58 ∧
    (generateInsights utcHost 1700000000000
      [Submission.mk "k1" "Ann" "a@x.com" "hi" "hello there" 8640000000000001,
       Submission.mk "k2" "Bob" "b@y.com" "yo" "good morning" 1699136000000]).growthRate
      = JSNumber.ofInt (-100) ∧
    [Submission.mk "k1" "Ann" "a@x.com" "hi" "hello there" 8640000000000001,
     Submission.mk "k2" "Bob" "b@y.com" "yo" "good morning" 1699136000000].countP
       (inTrailingWeek 1700000000000) = 1 ∧
    [Submission.mk "k1" "Ann" "a@x.com" "hi" "hello there" 8640000000000001,
     Submission.mk "k2" "Bob" "b@y.com" "yo" "good morning" 1699136000000].countP
       (inTrailingPreviousWeek 1700000000000) = 1 ∧
    growthExact 1 1 = 0 ∧
    (generateInsights easternHost 1699462800000
      [Submission.mk "k1" "Ann" "a@x.com" "hi" "hello there" 1698856200000,
       Submission.mk "k2" "Bob" "b@y.com" "yo" "good morning" 1698598800000]).thisWeek = 1 ∧
    (generateInsights easternHost 1699462800000
      [Submission.mk "k1" "Ann" "a@x.com" "hi" "hello there" 1698856200000,
       Submission.mk "k2" "Bob" "b@y.com" "yo" "good morning" 1698598800000]).lastWeek = 1 ∧
    [Submission.mk "k1" "Ann" "a@x.com" "hi" "hello there" 1698856200000,
     Submission.mk "k2" "Bob" "b@y.com" "yo" "good morning" 1698598800000].countP
       (inTrailingWeek 1699462800000) = 0 ∧
    [Submission.mk "k1" "Ann" "a@x.com" "hi" "hello there" 1698856200000,
     Submission.mk "k2" "Bob" "b@y.com" "yo" "good morning" 1698598800000].countP
       (inTrailingPreviousWeek 1699462800000) = 2 := by
  have ht : (generateInsights utcHost 1700000000000
      (List.replicate 63
          (Submission.mk "k1" "Ann" "a@x.com" "hi" "hello there" 1699913600000) ++
        List.replicate 40
          (Submission.mk "k2" "Bob" "b@y.com" "yo" "good morning" 1699136000000))).thisWeek
      = 63 := by
    rw [generateInsights_thisWeek utcHost 1700000000000 (by decide) (by decide),
      List.countP_append, List.countP_replicate, List.countP_replicate]
    decide
  have hl : (generateInsights utcHost 1700000000000
      (List.replicate 63
          (Submission.mk "k1" "Ann" "a@x.com" "hi" "hello there" 1699913600000) ++
        List.replicate 40
          (Submission.mk "k2" "Bob" "b@y.com" "yo" "good morning" 1699136000000))).lastWeek
      = 40 := by
    rw [generateInsights_lastWeek utcHost 1700000000000 (by decide) (by decide),
      List.countP_append, List.countP_replicate, List.countP_replicate]
    decide
  refine ⟨ht, hl, ?_, ?_, by decide, by decide, by decide, ?_, by decide, by decide,
    by decide, by decide⟩
  · rw [generateInsights_growthRate, ht, hl]
    decide
  · unfold growthExact
    rw [Int.floor_eq_iff]
    norm_num
  · unfold growthExact
    rw [Int.floor_eq_iff]
    norm_num

/-- C6 (amended): at a valid clock value and for a record list shorter than `2 ^ 32` (every
array is), `thisWeek` is the number of records with a valid timestamp later than the
instant 7 calendar days before `now`, and `lastWeek` the number of those with a valid
timestamp after the instant 14 calendar days before `now` and not after the instant 7
calendar days before `now`: two disjoint windows, which in a zone with a fixed offset are
`timestamp > now - 7 x 24 h` and `now - 14 x 24 h < timestamp <= now - 7 x 24 h`.  The
growth rate of `generateInsights` is exactly 0 when `lastWeek = 0`.  Otherwise it is
`Math.round` (`floor (y + 1/2)`) of the binary64 value `y` of the product by 100 of the
binary64 value of `(thisWeek - lastWeek) / lastWeek`; it equals the exact rounding
`round ((thisWeek - lastWeek) / lastWeek * 100)` whenever the exact percentage is not
half-way between two integers, and whenever the quotient and the product are binary64
values themselves; in the remaining cases it is that rounding or one less. -/
theorem growthRate_spec (h : Host) (now : Int) (h0 : 0 ≤ now) (h1 : now ≤ maxTime)
    (W : List Submission) (hlen : W.length < 2 ^ 32) :
    (generateInsights h now W).thisWeek = W.countP (laterThanDaysAgo h.tz now 7) ∧
    (generateInsights h now W).lastWeek = W.countP (inPreviousWeek h.tz now) ∧
    (∀ r : Submission,
      ¬ (laterThanDaysAgo h.tz now 7 r = true ∧ inPreviousWeek h.tz now r = true)) ∧
    (∀ offset : Int, h.tz = fixedZone offset →
      (generateInsights h now W).thisWeek =
        W.countP (fun r => decide (validTime r.timestamp) && inTrailingWeek now r) ∧
      (generateInsights h now W).lastWeek =
        W.countP (fun r => decide (validTime r.timestamp) && inTrailingPreviousWeek now r)) ∧
    ((generateInsights h now W).lastWeek = 0 →
      (generateInsights h now W).growthRate = JSNumber.ofInt 0) ∧
    ((generateInsights h now W).lastWeek ≠ 0 →
      (∃ y1 y2 : ℚ,
        IsBinary64Of ((((generateInsights h now W).thisWeek : ℚ) -
            ((generateInsights h now W).lastWeek : ℚ)) /
            ((generateInsights h now W).lastWeek : ℚ)) y1 ∧
        IsBinary64Of (y1 * 100) y2 ∧
        (generateInsights h now W).growthRate = JSNumber.ofInt ⌊y2 + 1 / 2⌋) ∧
      (∀ y1 y2 : ℚ,
        IsBinary64Of ((((generateInsights h now W).thisWeek : ℚ) -
            ((generateInsights h now W).lastWeek : ℚ)) /
            ((generateInsights h now W).lastWeek : ℚ)) y1 →
        IsBinary64Of (y1 * 100) y2 →
        (generateInsights h now W).growthRate = JSNumber.ofInt ⌊y2 + 1 / 2⌋) ∧
      (((growthExact (generateInsights h now W).thisWeek
            (generateInsights h now W).lastWeek : Int) : ℚ) ≠
          (((generateInsights h now W).thisWeek : ℚ) - ((generateInsights h now W).lastWeek : ℚ)) /
            ((generateInsights h now W).lastWeek : ℚ) * 100 + 1 / 2 →
        (generateInsights h now W).growthRate =
          JSNumber.ofInt (growthExact (generateInsights h now W).thisWeek
            (generateInsights h now W).lastWeek)) ∧
      (IsBinary64Of ((((generateInsights h now W).thisWeek : ℚ) -
            ((generateInsights h now W).lastWeek : ℚ)) /
            ((generateInsights h now W).lastWeek : ℚ))
          ((((generateInsights h now W).thisWeek : ℚ) -
            ((generateInsights h now W).lastWeek : ℚ)) /
            ((generateInsights h now W).lastWeek : ℚ)) →
        IsBinary64Of ((((generateInsights h now W).thisWeek : ℚ) -
            ((generateInsights h now W).lastWeek : ℚ)) /
            ((generateInsights h now W).lastWeek : ℚ) * 100)
          ((((generateInsights h now W).thisWeek : ℚ) -
            ((generateInsights h now W).lastWeek : ℚ)) /
            ((generateInsights h now W).lastWeek : ℚ) * 100) →
        (generateInsights h now W).growthRate =
          JSNumber.ofInt (growthExact (generateInsights h now W).thisWeek
            (generateInsights h now W).lastWeek)) ∧
      ((generateInsights h now W).growthRate =
          JSNumber.ofInt (growthExact (generateInsights h now W).thisWeek
            (generateInsights h now W).lastWeek) ∨
        (generateInsights h now W).growthRate =
          JSNumber.ofInt (growthExact (generateInsights h now W).thisWeek
            (generateInsights h now W).lastWeek - 1))) := by
  have ht := generateInsights_thisWeek h now h0 h1 W
  have hl := generateInsights_lastWeek h now h0 h1 W
  refine ⟨ht, hl, ?_, ?_, ?_, ?_⟩
  · intro r hr
    simp only [laterThanDaysAgo, inPreviousWeek, Bool.and_eq_true, decide_eq_true_eq] at hr
    omega
  · intro offset hz
    rw [ht, hl, hz]
    constructor
    · apply List.countP_congr
      intro r _
      simp only [laterThanDaysAgo, inTrailingWeek, daysBefore_fixedZone]
    · apply List.countP_congr
      intro r _
      simp only [inPreviousWeek, inTrailingPreviousWeek, daysBefore_fixedZone, gt_iff_lt,
        Bool.and_eq_true, decide_eq_true_eq]
      tauto
  · intro hz
    rw [generateInsights_growthRate, hz]
    rfl
  · intro hnz
    have hta : (generateInsights h now W).thisWeek < 2 ^ 32 := by
      rw [ht]
      exact lt_of_le_of_lt (List.countP_le_length _) hlen
    have hla : (generateInsights h now W).lastWeek < 2 ^ 32 := by
      rw [hl]
      exact lt_of_le_of_lt (List.countP_le_length _) hlen
    have hpos := Nat.pos_of_ne_zero hnz
    rw [generateInsights_growthRate, if_pos hnz]
    have hall := growth_binary64 (generateInsights h now W).thisWeek
      (generateInsights h now W).lastWeek hpos
    obtain ⟨y1, y2, hy1, hy2⟩ := growth_binary64_exists (generateInsights h now W).thisWeek
      (generateInsights h now W).lastWeek hpos
    obtain ⟨g1, g2⟩ := growth_value _ _ hpos hta hla
    exact ⟨⟨y1, y2, hy1, hy2, hall y1 y2 hy1 hy2⟩, hall, g2, fun e1 e2 => hall _ _ e1 e2, g1⟩

/-- C6 (amended) at a concrete record set: 7 records of this week and 8 of last week.  The
exact percentage -12.5 is half-way between two integers, the quotient -0.125 and the
product -12.5 are binary64 values, and the growth rate is the exact rounding -12. -/
theorem growthRate_spec_witness :
    (0 : Int) ≤ 1700000000000 ∧ (1700000000000 : Int) ≤ maxTime ∧
    (List.replicate 7
        (Submission.mk "k1" "Ann" "a@x.com" "hi" "hello there" 1699913600000) ++
      List.replicate 8
        (Submission.mk "k2" "Bob" "b@y.com" "yo" "good morning" 1699136000000)).length
      < 2 ^ 32 ∧
    (generateInsights utcHost 1700000000000
      (List.replicate 7
          (Submission.mk "k1" "Ann" "a@x.com" "hi" "hello there" 1699913600000) ++
        List.replicate 8
          (Submission.mk "k2" "Bob" "b@y.com" "yo" "good morning" 1699136000000))).thisWeek =
      (List.replicate 7
          (Submission.mk "k1" "Ann" "a@x.com" "hi" "hello there" 1699913600000) ++
        List.replicate 8
          (Submission.mk "k2" "Bob" "b@y.com" "yo" "good morning" 1699136000000)).countP
        (laterThanDaysAgo utcHost.tz 1700000000000 7) ∧
    (generateInsights utcHost 1700000000000
      (List.replicate 7
          (Submission.mk "k1" "Ann" "a@x.com" "hi" "hello there" 1699913600000) ++
        List.replicate 8
          (Submission.mk "k2" "Bob" "b@y.com" "yo" "good morning" 1699136000000))).growthRate =
      JSNumber.ofInt (-12) ∧
    growthExact 7 8 = -12 :=
  ⟨by decide, by decide, by decide,
    (growthRate_spec utcHost 1700000000000 (by decide) (by decide) _ (by decide)).1,
    by decide,
    by unfold growthExact; rw [Int.floor_eq_iff]; norm_num⟩

/-! ## The submit handler -/

/-- The submit handler saves exactly when the three checks of the source pass, and each
error text is set by the check of its own field alone. -/
theorem submitHandler_checks (now : Int) (nameInput emailInput subjectInput messageInput : String) :
    ((submitHandler now nameInput emailInput subjectInput messageInput).saved.isSome = true ↔
      (2 ≤ utf16Length (trim nameInput) ∧ regexTest emailRegex (trim emailInput) = true ∧
        10 ≤ utf16Length (trim messageInput))) ∧
    ((submitHandler now nameInput emailInput subjectInput messageInput).nameError ≠ "" ↔
      utf16Length (trim nameInput) < 2) ∧
    ((submitHandler now nameInput emailInput subjectInput messageInput).emailError ≠ "" ↔
      regexTest emailRegex (trim emailInput) = false) ∧
    ((submitHandler now nameInput emailInput subjectInput messageInput).messageError ≠ "" ↔
      utf16Length (trim messageInput) < 10) := by
  simp only [submitHandler]
  by_cases hn : utf16Length (trim nameInput) < 2 <;>
    by_cases he : regexTest emailRegex (trim emailInput) = true <;>
    by_cases hm : utf16Length (trim messageInput) < 10 <;>
    (simp [hn, he, hm]; try omega)

/-- C11 (evaluation at the failing input): the input with name `Ann`, email `a@x.com` and
message `hello there` meets the three conditions of the specification, the email matching
`local@domain.tld`; yet `emailRegex.test` is false on `a@x.com`, because the doubled
backslashes of the literal make the classes exclude the backslash and the letter `s` and
make the pattern demand a backslash where the dot is meant, so the handler sets the email
error and saves nothing; what it does save is an input such as `a@x\.com`. -/
theorem submitHandler_rejects_plain_email :
    formAccepted "Ann" "a@x.com" "hello there" = true ∧
    regexTest emailRegex "a@x.com" = false ∧
    submitHandler 1700000000000 "Ann" "a@x.com" "hi" "hello there" =
      { nameError := "", emailError := "Please enter a valid email address",
        messageError := "", saved := none } ∧
    submitHandler 1700000000000 " Ann " "a@x\\.com" "hi" "hello there" =
      { nameError := "", emailError := "", messageError := "",
        saved := some { name := "Ann", email := "a@x\\.com", subject := "hi",
                        message := "hello there", timestamp := 1700000000000 } } ∧
    submitHandler 1700000000000 "A" "a@x.com" "hi" "too short" =
      { nameError := "Name must be at least 2 characters long",
        emailError := "Please enter a valid email address",
        messageError := "Message must be at least 10 characters long", saved := none } := by
  refine ⟨by decide, by decide, by decide, by decide, by decide⟩

/-! ## `loadData` and the ids of the working set -/

/-- `Object.entries` lists every property of the snapshot value once. -/
theorem snapshotEntries_perm (data : SnapshotValue) : (snapshotEntries data).Perm data := by
  unfold snapshotEntries
  refine ((List.perm_insertionSort snapshotIndexLe _).append_right _).trans ?_
  exact List.filter_append_perm _ data

/-- `filterTable` keeps a sub-sequence of the working set. -/
theorem filterTable_sublist (h : Host) (now : Int) (search selector : String)
    (st : Dashboard) :
    List.Sublist (filterTable h now search selector st).allSubmissions st.allSubmissions := by
  simp only [filterTable]
  split_ifs
  · exact (List.filter_sublist _).trans (List.filter_sublist _)
  · exact List.filter_sublist _
  · exact List.filter_sublist _
  · exact List.Sublist.refl _

/-- Where the ids of the working set are the keys: for a snapshot value with pairwise
distinct keys none of whose records has a stored child named `id`, the working set built
by `loadData` has exactly one record per snapshot key (its ids are a rearrangement of the
keys, and it has as many records as there are keys), every record carries its key as id
and the fields stored under that key, and the ids are pairwise distinct; a `null` snapshot
gives the empty working set; and `filterTable` keeps the ids of any working set pairwise
distinct. -/
theorem loadData_ids (data : SnapshotValue) (hkeys : (data.map (fun p => p.1)).Nodup)
    (hshape : ∀ p ∈ data, p.2.id = none) (st : Dashboard) :
    (idsOf (loadData (some data) st).allSubmissions).Perm (data.map (fun p => p.1)) ∧
    (loadData (some data) st).allSubmissions.length = data.length ∧
    (∀ r ∈ (loadData (some data) st).allSubmissions, ∃ p ∈ data,
      r.id = p.1 ∧ r.name = p.2.name ∧ r.email = p.2.email ∧ r.subject = p.2.subject ∧
        r.message = p.2.message ∧ r.timestamp = p.2.timestamp) ∧
    (idsOf (loadData (some data) st).allSubmissions).Nodup ∧
    (loadData none st).allSubmissions = [] ∧
    (∀ (h : Host) (now : Int) (search selector : String) (st' : Dashboard),
      (idsOf st'.allSubmissions).Nodup →
        (idsOf (filterTable h now search selector st').allSubmissions).Nodup) := by
  have hperm := snapshotEntries_perm data
  have hids : idsOf (loadData (some data) st).allSubmissions =
      (snapshotEntries data).map (fun p => p.1) := by
    simp only [idsOf, loadData, List.map_map]
    apply List.map_congr_left
    intro p hp
    have := hshape p (hperm.mem_iff.mp hp)
    simp [mergeId, this]
  have hp1 : (idsOf (loadData (some data) st).allSubmissions).Perm (data.map (fun p => p.1)) := by
    rw [hids]
    exact hperm.map _
  refine ⟨hp1, ?_, ?_, hp1.nodup_iff.mpr hkeys, rfl, ?_⟩
  · simp only [loadData, List.length_map]
    exact hperm.length_eq
  · intro r hr
    simp only [loadData, List.mem_map] at hr
    obtain ⟨p, hp, rfl⟩ := hr
    have hpd := hperm.mem_iff.mp hp
    refine ⟨p, hpd, ?_, rfl, rfl, rfl, rfl, rfl⟩
    simp [mergeId, hshape p hpd]
  · intro h now search selector st' hnd
    exact hnd.sublist ((filterTable_sublist h now search selector st').map _)

/-- The ids of the working set at a concrete snapshot with the keys `-Nk2`, `-Nk1` and no
stored child named `id`. -/
theorem loadData_ids_witness :
    ([("-Nk2", StoredRecord.mk none "Bob" "b@y.com" "yo" "good morning" 1699840800000),
      ("-Nk1", StoredRecord.mk none "Ann" "a@x.com" "hi" "hello there" 1699790400000)].map
        (fun p => p.1)).Nodup ∧
    (∀ p ∈ [("-Nk2", StoredRecord.mk none "Bob" "b@y.com" "yo" "good morning" 1699840800000),
      ("-Nk1", StoredRecord.mk none "Ann" "a@x.com" "hi" "hello there" 1699790400000)],
      p.2.id = none) ∧
    (idsOf (loadData (some
      [("-Nk2", StoredRecord.mk none "Bob" "b@y.com" "yo" "good morning" 1699840800000),
       ("-Nk1", StoredRecord.mk none "Ann" "a@x.com" "hi" "hello there" 1699790400000)])
      (Dashboard.mk [] 1)).allSubmissions).Nodup ∧
    idsOf (loadData (some
      [("-Nk2", StoredRecord.mk none "Bob" "b@y.com" "yo" "good morning" 1699840800000),
       ("-Nk1", StoredRecord.mk none "Ann" "a@x.com" "hi" "hello there" 1699790400000)])
      (Dashboard.mk [] 1)).allSubmissions = ["-Nk2", "-Nk1"] :=
  ⟨by decide, by decide,
    (loadData_ids _ (by decide) (by decide) (Dashboard.mk [] 1)).2.2.2.1, by decide⟩

/-- C12 (evaluation at the failing input): the snapshot has the two keys `k1` and `k2`, and
the record stored under `k1` has a child named `id` with the value `k2`.  In the object
literal `{ id, ...submission }` the stored `id` is copied after the key and replaces it:
the working set has one record per key, but both records carry the id `k2`, so the record
stored under `k1` does not carry its key and the ids are not pairwise distinct, although
the keys are.  Without the stored child the ids are the keys. -/
theorem loadData_stored_id_replaces_key :
    (loadData (some
      [("k1", StoredRecord.mk (some "k2") "Ann" "a@x.com" "hi" "hello there" 1699790400000),
       ("k2", StoredRecord.mk none "Bob" "b@y.com" "yo" "good morning" 1699840800000)])
      (Dashboard.mk [] 1)).allSubmissions =
      [Submission.mk "k2" "Ann" "a@x.com" "hi" "hello there" 1699790400000,
       Submission.mk "k2" "Bob" "b@y.com" "yo" "good morning" 1699840800000] ∧
    idsOf (loadData (some
      [("k1", StoredRecord.mk (some "k2") "Ann" "a@x.com" "hi" "hello there" 1699790400000),
       ("k2", StoredRecord.mk none "Bob" "b@y.com" "yo" "good morning" 1699840800000)])
      (Dashboard.mk [] 1)).allSubmissions = ["k2", "k2"] ∧
    ¬ (idsOf (loadData (some
      [("k1", StoredRecord.mk (some "k2") "Ann" "a@x.com" "hi" "hello there" 1699790400000),
       ("k2", StoredRecord.mk none "Bob" "b@y.com" "yo" "good morning" 1699840800000)])
      (Dashboard.mk [] 1)).allSubmissions).Nodup ∧
    ([("k1", StoredRecord.mk (some "k2") "Ann" "a@x.com" "hi" "hello there" 1699790400000),
      ("k2", StoredRecord.mk none "Bob" "b@y.com" "yo" "good morning" 1699840800000)].map
        (fun p => p.1)).Nodup ∧
    idsOf (loadData (some
      [("k1", StoredRecord.mk none "Ann" "a@x.com" "hi" "hello there" 1699790400000),
       ("k2", StoredRecord.mk none "Bob" "b@y.com" "yo" "good morning" 1699840800000)])
      (Dashboard.mk [] 1)).allSubmissions = ["k1", "k2"] := by
  refine ⟨by decide, by decide, by decide, by decide, by decide⟩

/-! ## `filterTable` as a transition of the module state -/

/-- With the selector `all` and an empty search string `filterTable` keeps the working
set. -/
theorem filterTable_all_empty (h : Host) (hlow : h.toLowerCase "" = "") (now : Int)
    (st : Dashboard) : (filterTable h now "" "all" st).allSubmissions = st.allSubmissions := by
  simp [filterTable, hlow]

/-- Successive calls of `filterTable` never enlarge the working set. -/
theorem filterTableCalls_length (h : Host) (calls : List FilterCall) (st : Dashboard) :
    (filterTableCalls h calls st).allSubmissions.length ≤ st.allSubmissions.length := by
  induction calls generalizing st with
  | nil => exact le_refl _
  | cons c calls ih =>
    have h1 := ih (filterTable h c.now c.searchInput c.filterSelect st)
    have h2 := (filterTable_sublist h c.now c.searchInput c.filterSelect st).length_le
    exact le_trans h1 h2

/-- C13: `filterTable` overwrites the module-level working set: after a call with any
selector and search string the working set is the filtered sequence, a sub-sequence of the
former working set `W`, and the current page is 1; a following call with the selector `all`
and an empty search string leaves the narrowed working set as it is, so it does not restore
`W` when the first call removed a record; and across successive calls of `filterTable`
with no snapshot in between the size of the working set never increases. -/
theorem filterTable_destructive (h : Host) (hlow : h.toLowerCase "" = "") (now : Int)
    (search selector : String) (st : Dashboard) :
    (filterTable h now search selector st).allSubmissions =
      st.allSubmissions.filter (fun r =>
        (decide (selector = "all") || timeFilter h selector (newDate now) r) &&
        (decide (h.toLowerCase search = "") || searchFilter h (h.toLowerCase search) r)) ∧
    List.Sublist (filterTable h now search selector st).allSubmissions st.allSubmissions ∧
    (filterTable h now search selector st).currentPage = 1 ∧
    (∀ now' : Int,
      (filterTable h now' "" "all" (filterTable h now search selector st)).allSubmissions =
        (filterTable h now search selector st).allSubmissions) ∧
    (∀ now' : Int,
      (filterTable h now search selector st).allSubmissions ≠ st.allSubmissions →
      (filterTable h now' "" "all" (filterTable h now search selector st)).allSubmissions ≠
        st.allSubmissions) ∧
    (∀ (calls : List FilterCall) (c : FilterCall),
      (filterTableCalls h (calls ++ [c]) st).allSubmissions.length ≤
        (filterTableCalls h calls st).allSubmissions.length) ∧
    (∀ calls : List FilterCall,
      (filterTableCalls h calls st).allSubmissions.length ≤ st.allSubmissions.length) := by
  refine ⟨?_, filterTable_sublist h now search selector st, rfl, ?_, ?_, ?_,
    fun calls => filterTableCalls_length h calls st⟩
  · simp only [filterTable]
    by_cases hs : selector = "all" <;> by_cases hq : h.toLowerCase search = "" <;>
      simp [hs, hq, List.filter_filter, Bool.and_comm]
  · intro now'
    exact filterTable_all_empty h hlow now' _
  · intro now' hne
    rw [filterTable_all_empty h hlow now' _]
    exact hne
  · intro calls c
    have e : filterTableCalls h (calls ++ [c]) st =
        filterTable h c.now c.searchInput c.filterSelect (filterTableCalls h calls st) := by
      simp [filterTableCalls, List.foldl_append]
    rw [e]
    exact (filterTable_sublist h c.now c.searchInput c.filterSelect _).length_le

/-- C13 at a concrete working set: the search `ann` narrows two records to one, and the
following call with `all` and the empty search keeps the one record. -/
theorem filterTable_destructive_witness :
    utcHost.toLowerCase "" = "" ∧
    (filterTable utcHost 1700000000001 "" "all"
      (filterTable utcHost 1700000000000 "ann" "all"
        (Dashboard.mk
          [Submission.mk "k1" "Ann" "a@x.com" "hi" "hello there" 1699790400000,
           Submission.mk "k2" "Bob" "b@y.com" "yo" "good morning" 1699840800000] 2))).allSubmissions =
      (filterTable utcHost 1700000000000 "ann" "all"
        (Dashboard.mk
          [Submission.mk "k1" "Ann" "a@x.com" "hi" "hello there" 1699790400000,
           Submission.mk "k2" "Bob" "b@y.com" "yo" "good morning" 1699840800000] 2)).allSubmissions ∧
    (filterTable utcHost 1700000000000 "ann" "all"
        (Dashboard.mk
          [Submission.mk "k1" "Ann" "a@x.com" "hi" "hello there" 1699790400000,
           Submission.mk "k2" "Bob" "b@y.com" "yo" "good morning" 1699840800000] 2)).allSubmissions =
      [Submission.mk "k1" "Ann" "a@x.com" "hi" "hello there" 1699790400000] :=
  ⟨by decide,
    (filterTable_destructive utcHost (by decide) 1700000000000 "ann" "all" _).2.2.2.1
      1700000000001,
    by decide⟩

end PoliticsForm
